import Mathlib

/-!
# secrets-store-csi-driver: the `controllers` package

A shallow embedding of `controllers/utils.go` and
`controllers/secretproviderclasspodstatus_controller.go`.

* Go strings and byte slices are byte sequences (`List (Fin 256)`).
* A Go `map[string][]byte` is an association list with pairwise distinct keys,
  wrapped in `Option` so that the nil map is distinguished from an empty one.
  The order of the list stands for one possible iteration order of the map.
* Library code the package calls (SHA-1, PEM, X.509, the API server, the file
  system) is taken as a parameter.
-/

namespace Controllers

/-! ## Strings, byte slices and maps -/

/-- One byte. -/
abbrev Byte := Fin 256

/-- A Go `string`: an immutable sequence of bytes. -/
abbrev GoString := List Byte

/-- A Go `[]byte`. -/
abbrev Bytes := List Byte

/-- The bytes of an ASCII literal. -/
def goStr (s : String) : GoString := s.toList.map (fun c => Fin.ofNat c.toNat)

/-- A Go `map[string][]byte`; `none` is the nil map. -/
abbrev DataMap := Option (List (GoString × Bytes))

/-- The entries a `range` over the map visits. -/
def DataMap.entries : DataMap → List (GoString × Bytes)
  | none => []
  | some l => l

/-- Go `len(m)`. -/
def DataMap.len (m : DataMap) : Nat := m.entries.length

/-- Assignment `m[k] = v` on the entries of a map. -/
def setEntry {β : Type} (k : GoString) (v : β) : List (GoString × β) → List (GoString × β)
  | [] => [(k, v)]
  | (k', v') :: rest => if k' = k then (k, v) :: rest else (k', v') :: setEntry k v rest

/-- Go `m[k] = v` (on a nil map Go would fault; the controller only assigns to a made map). -/
def DataMap.set (m : DataMap) (k : GoString) (v : Bytes) : DataMap :=
  some (setEntry k v m.entries)

/-- Go `v, ok := m[k]`. -/
def lookupEntry {β : Type} (k : GoString) : List (GoString × β) → Option β
  | [] => none
  | (k', v') :: rest => if k' = k then some v' else lookupEntry k rest

/-- Go `v, ok := m[k]` on a map. -/
def DataMap.get (m : DataMap) (k : GoString) : Option Bytes := lookupEntry k m.entries

/-! ## Errors -/

/-- The error values the controller produces or receives. -/
inductive Error where
  /-- an API error for which `apierrors.IsNotFound` holds -/
  | notFound
  /-- an API error for which `apierrors.IsAlreadyExists` holds -/
  | alreadyExists
  /-- any other error of the API server, the file system or a library -/
  | other (code : Nat)
  /-- `status.Error(codes.Internal, err.Error())` -/
  | internal (cause : Error)
  /-- `wait.ErrWaitTimeout` -/
  | waitTimeout
  /-- "tls key is not supported. Only tls.key and tls.crt are supported" -/
  | tlsKeyNotSupported
  /-- "unknown private key type found while getting key. Only rsa and ecdsa are supported" -/
  | unknownPrivateKeyType
  /-- "secret name is empty at index %d" -/
  | secretNameEmpty (idx : Nat)
  /-- "secret type is empty at index %d for secret %s" -/
  | secretTypeEmpty (idx : Nat) (name : GoString)
  /-- "data is empty at index %d for secret %s" -/
  | dataEmpty (idx : Nat) (name : GoString)
  /-- "failed to check if secret %s exists, err: %+v" -/
  | existsCheckFailed (name : GoString) (cause : Error)
  /-- "failed to generate SHA for secret %s, err: %+v" -/
  | shaFailed (name : GoString) (cause : Error)
  /-- "object name in data is empty at index %d for secret %s" -/
  | objectNameEmpty (idx : Nat) (name : GoString)
  /-- "key in data is empty at index %d for secret %s" -/
  | keyEmpty (idx : Nat) (name : GoString)
  deriving DecidableEq, Repr

/-- `apierrors.IsNotFound`. -/
def Error.isNotFound : Error → Bool
  | .notFound => true
  | _ => false

/-- `apierrors.IsAlreadyExists`. -/
def Error.isAlreadyExists : Error → Bool
  | .alreadyExists => true
  | _ => false

/-! ## utils.go: the change detector -/

/-- Go `a < b` on strings: bytewise lexicographic order. -/
def strLess : GoString → GoString → Bool
  | [], [] => false
  | [], _ :: _ => true
  | _ :: _, [] => false
  | a :: as, b :: bs => if a < b then true else if b < a then false else strLess as bs

/-- The order `sort.Strings` sorts by: `a` may stand before `b` when `b < a` is false. -/
def strLE (a b : GoString) : Prop := strLess b a = false

instance strLE.decidable : DecidableRel strLE := fun a b =>
  inferInstanceAs (Decidable (strLess b a = false))

/-- `sort.Strings`: the result is the increasing arrangement of the input. -/
def sortStrings (values : List GoString) : List GoString :=
  List.insertionSort strLE values

/-- `strings.Join(values, sep)`. -/
def stringsJoin (sep : GoString) : List GoString → GoString
  | [] => []
  | [a] => a
  | a :: b :: rest => a ++ sep ++ stringsJoin sep (b :: rest)

/-- The byte `=`. -/
def eqByte : Byte := 61

/-- The byte `;`. -/
def semiByte : Byte := 59

/-- The entry `k+"="+string(v[:])` of `getSHAfromSecret`. -/
def renderEntry (kv : GoString × Bytes) : GoString := kv.1 ++ [eqByte] ++ kv.2

/-- The lower-case hexadecimal digit of a value below 16. -/
def hexDigit (d : Nat) : Byte := if d < 10 then Fin.ofNat (48 + d) else Fin.ofNat (87 + d)

/-- The two lower-case hexadecimal digits of a byte. -/
def hexByte (b : Byte) : GoString := [hexDigit (b.val / 16), hexDigit (b.val % 16)]

/-- `fmt.Sprintf("%x", sha)`. -/
def hexEncode (sha : Bytes) : GoString := sha.flatMap hexByte

/-- `generateSHA`: hash the string and hex-encode the sum. `sha1` is the digest
`crypto/sha1` computes; a write to a `hash.Hash` never returns an error, so the
error return of the source is never taken. -/
def generateSHA (sha1 : GoString → Bytes) (data : GoString) : Except Error GoString :=
  .ok (hexEncode (sha1 data))

/-- The string `getSHAfromSecret` hashes: the rendered entries, sorted, joined with `;`. -/
def shaInput (data : DataMap) : GoString :=
  let values := data.entries.map renderEntry
  stringsJoin [semiByte] (sortStrings values)

/-- `getSHAfromSecret`. -/
def getSHAfromSecret (sha1 : GoString → Bytes) (data : DataMap) : Except Error GoString :=
  generateSHA sha1 (shaInput data)

/-- What follows the first element in a joined string. -/
def joinTail : List GoString → GoString
  | [] => []
  | b :: rest => semiByte :: stringsJoin [semiByte] (b :: rest)

/-- A string of the form `key=value` whose key has no `=` and whose value has no `;`. -/
def WellFormedEntry (e : GoString) : Prop :=
  ∃ k v, e = k ++ eqByte :: v ∧ eqByte ∉ k ∧ semiByte ∉ v

/-- A map whose value for `a` holds a `;`. -/
def collisionMap₁ : List (GoString × Bytes) :=
  [(goStr "a", goStr "1;b=2"), (goStr "b", goStr "3")]

/-- A map with the keys of `collisionMap₁` whose value for `b` holds a `;`. -/
def collisionMap₂ : List (GoString × Bytes) :=
  [(goStr "a", goStr "1"), (goStr "b", goStr "2;b=3")]

/-! ## Library code taken as given -/

/-- `pem.Block`. -/
structure PemBlock where
  /-- the field `Type`: the type in the BEGIN line -/
  Type_ : GoString
  /-- the optional headers -/
  Headers : List (GoString × GoString)
  /-- the decoded payload -/
  Bytes : Bytes
  deriving DecidableEq, Repr

/-- What `x509.ParsePKCS8PrivateKey` returns: an RSA key, an ECDSA key, or a key
of another algorithm. -/
inductive PKCS8Key (RSA EC : Type) where
  | rsa (key : RSA)
  | ecdsa (key : EC)
  | otherKey
  deriving DecidableEq, Repr

/-- `metav1.OwnerReference`. -/
structure OwnerReference where
  APIVersion : GoString
  Kind : GoString
  Name : GoString
  UID : GoString
  deriving DecidableEq, Repr

/-- `v1alpha1.SecretProviderClassPodStatus`, the fields the reconciler reads. -/
structure SecretProviderClassPodStatus where
  Namespace : GoString
  Name : GoString
  UID : GoString
  /-- `nil`, or the time of the deletion request (0 is the zero time) -/
  DeletionTimestamp : Option Nat
  Labels : List (GoString × GoString)
  /-- `Status.SecretProviderClassName` -/
  SecretProviderClassName : GoString
  /-- `Status.TargetPath` -/
  TargetPath : GoString
  deriving DecidableEq, Repr

/-- `corev1.SecretType` is a string type. -/
abbrev SecretType := GoString

/-- `corev1.Secret`, the fields the controller sets or reads. -/
structure Secret where
  Namespace : GoString
  Name : GoString
  /-- the field `Type` -/
  Type_ : SecretType
  Data : DataMap
  OwnerReferences : List OwnerReference
  ResourceVersion : GoString
  deriving DecidableEq, Repr

/-- `&corev1.Secret{}`. -/
def Secret.zero : Secret :=
  { Namespace := [], Name := [], Type_ := [], Data := none, OwnerReferences := [],
    ResourceVersion := [] }

/-- The standard-library and Kubernetes-library functions the package calls.
`RSA` and `EC` are the types of parsed RSA and ECDSA private keys. -/
structure Lib (RSA EC : Type) where
  /-- the sum `crypto/sha1` computes -/
  sha1 : GoString → Bytes
  /-- `strings.EqualFold` -/
  equalFold : GoString → GoString → Bool
  /-- `pem.Decode`: the first block found and the rest of the input, or no block -/
  pemDecode : Bytes → Option (PemBlock × Bytes)
  /-- `pem.EncodeToMemory` -/
  pemEncodeToMemory : PemBlock → Bytes
  /-- `x509.ParsePKCS1PrivateKey` -/
  parsePKCS1PrivateKey : Bytes → Except Error RSA
  /-- `x509.ParsePKCS8PrivateKey` -/
  parsePKCS8PrivateKey : Bytes → Except Error (PKCS8Key RSA EC)
  /-- `x509.ParseECPrivateKey` -/
  parseECPrivateKey : Bytes → Except Error EC
  /-- `x509.MarshalPKCS1PrivateKey` -/
  marshalPKCS1PrivateKey : RSA → Bytes
  /-- `x509.MarshalECPrivateKey` -/
  marshalECPrivateKey : EC → Except Error Bytes
  /-- `controllerutil.SetOwnerReference` of the owner on the object: it validates
  the owner against the object and upserts the owner's reference into the owner
  references of the object; the result is the new list of owner references, no
  other field of the object changes -/
  setOwnerReference : SecretProviderClassPodStatus → Secret →
    Except Error (List OwnerReference)
  /-- `v1alpha1.InternalNodeLabel` -/
  internalNodeLabel : GoString
  /-- `pem.Decode` returns as rest a proper suffix of its input when it finds a block -/
  pemDecode_shrinks : ∀ data block rest, pemDecode data = some (block, rest) →
    rest.length < data.length

/-! ## utils.go: certificates, keys and secret types -/

/-- The constant `certType`. -/
def certType : GoString := goStr "CERTIFICATE"

/-- The constant `privateKeyType`. -/
def privateKeyType : GoString := goStr "RSA PRIVATE KEY"

/-- `corev1.TLSPrivateKeyKey`. -/
def TLSPrivateKeyKey : GoString := goStr "tls.key"

/-- `corev1.TLSCertKey`. -/
def TLSCertKey : GoString := goStr "tls.crt"

/-- `corev1.SecretTypeOpaque`. -/
def SecretTypeOpaque : SecretType := goStr "Opaque"

/-- `corev1.SecretTypeServiceAccountToken`. -/
def SecretTypeServiceAccountToken : SecretType := goStr "kubernetes.io/service-account-token"

/-- `corev1.SecretTypeDockercfg`. -/
def SecretTypeDockercfg : SecretType := goStr "kubernetes.io/dockercfg"

/-- `corev1.SecretTypeDockerConfigJson`. -/
def SecretTypeDockerConfigJson : SecretType := goStr "kubernetes.io/dockerconfigjson"

/-- `corev1.SecretTypeBasicAuth`. -/
def SecretTypeBasicAuth : SecretType := goStr "kubernetes.io/basic-auth"

/-- `corev1.SecretTypeSSHAuth`. -/
def SecretTypeSSHAuth : SecretType := goStr "kubernetes.io/ssh-auth"

/-- `corev1.SecretTypeTLS`. -/
def SecretTypeTLS : SecretType := goStr "kubernetes.io/tls"

/-- `corev1.SecretTypeBootstrapToken`. -/
def SecretTypeBootstrapToken : SecretType := goStr "bootstrap.kubernetes.io/token"

/-- The loop of `getCert`: `fuel` bounds the rounds, `certs` is the accumulator. -/
def getCertLoop {RSA EC : Type} (lib : Lib RSA EC) : Nat → Bytes → Bytes → Bytes
  | 0, _, certs => certs
  | fuel + 1, data, certs =>
    match lib.pemDecode data with
    | none => certs
    | some (pemBlock, rest) =>
      if pemBlock.Type_ = certType then
        getCertLoop lib fuel rest (certs ++ lib.pemEncodeToMemory pemBlock)
      else
        getCertLoop lib fuel rest certs

/-- `getCert`. Every round that finds a block shortens the data, so
`data.length + 1` rounds reach the `break`. -/
def getCert {RSA EC : Type} (lib : Lib RSA EC) (data : Bytes) : Except Error Bytes :=
  .ok (getCertLoop lib (data.length + 1) data [])

/-- The loop of `getPrivateKey`: `der` holds the payload of the last block seen
whose type is not `certType`. -/
def getPrivateKeyLoop {RSA EC : Type} (lib : Lib RSA EC) : Nat → Bytes → Bytes → Bytes
  | 0, _, der => der
  | fuel + 1, data, der =>
    match lib.pemDecode data with
    | none => der
    | some (pemBlock, rest) =>
      if pemBlock.Type_ ≠ certType then
        getPrivateKeyLoop lib fuel rest pemBlock.Bytes
      else
        getPrivateKeyLoop lib fuel rest der

/-- The payload `getPrivateKey` retains before decoding. -/
def retainedPayload {RSA EC : Type} (lib : Lib RSA EC) (data : Bytes) : Bytes :=
  getPrivateKeyLoop lib (data.length + 1) data []

/-- The first `if` of `getPrivateKey`: the PKCS#1 attempt. -/
def pkcs1Attempt {RSA EC : Type} (lib : Lib RSA EC) (der derKey : Bytes) : Bytes :=
  match lib.parsePKCS1PrivateKey der with
  | .ok key => lib.marshalPKCS1PrivateKey key
  | .error _ => derKey

/-- The second `if` of `getPrivateKey`: the PKCS#8 attempt. -/
def pkcs8Attempt {RSA EC : Type} (lib : Lib RSA EC) (der derKey : Bytes) : Except Error Bytes :=
  match lib.parsePKCS8PrivateKey der with
  | .ok (.rsa key) => .ok (lib.marshalPKCS1PrivateKey key)
  | .ok (.ecdsa key) =>
    match lib.marshalECPrivateKey key with
    | .ok b => .ok b
    | .error err => .error err
  | .ok .otherKey => .error .unknownPrivateKeyType
  | .error _ => .ok derKey

/-- The third `if` of `getPrivateKey`: the SEC1 attempt. -/
def ecAttempt {RSA EC : Type} (lib : Lib RSA EC) (der derKey : Bytes) : Except Error Bytes :=
  match lib.parseECPrivateKey der with
  | .ok key =>
    match lib.marshalECPrivateKey key with
    | .ok b => .ok b
    | .error err => .error err
  | .error _ => .ok derKey

/-- `getPrivateKey`. -/
def getPrivateKey {RSA EC : Type} (lib : Lib RSA EC) (data : Bytes) : Except Error Bytes :=
  let der := retainedPayload lib data
  let derKey : Bytes := pkcs1Attempt lib der []
  match pkcs8Attempt lib der derKey with
  | .error err => .error err
  | .ok derKey =>
    match ecAttempt lib der derKey with
    | .error err => .error err
    | .ok derKey =>
      .ok (lib.pemEncodeToMemory { Type_ := privateKeyType, Headers := [], Bytes := derKey })

/-- `getCertPart`. -/
def getCertPart {RSA EC : Type} (lib : Lib RSA EC) (data : Bytes) (key : GoString) :
    Except Error Bytes :=
  if key = TLSPrivateKeyKey then getPrivateKey lib data
  else if key = TLSCertKey then getCert lib data
  else .error .tlsKeyNotSupported

/-- `getSecretType`. -/
def getSecretType (sType : GoString) : SecretType :=
  if sType = goStr "kubernetes.io/basic-auth" then SecretTypeBasicAuth
  else if sType = goStr "bootstrap.kubernetes.io/token" then SecretTypeBootstrapToken
  else if sType = goStr "kubernetes.io/dockerconfigjson" then SecretTypeDockerConfigJson
  else if sType = goStr "kubernetes.io/dockercfg" then SecretTypeDockercfg
  else if sType = goStr "kubernetes.io/ssh-auth" then SecretTypeSSHAuth
  else if sType = goStr "kubernetes.io/service-account-token" then SecretTypeServiceAccountToken
  else if sType = goStr "kubernetes.io/tls" then SecretTypeTLS
  else SecretTypeOpaque

/-! ## secretproviderclasspodstatus_controller.go: objects -/

/-- `v1alpha1.SecretObjectData`. -/
structure SecretObjectData where
  ObjectName : GoString
  Key : GoString
  deriving DecidableEq, Repr

/-- `v1alpha1.SecretObject`. -/
structure SecretObject where
  SecretName : GoString
  /-- the field `Type` -/
  Type_ : GoString
  Data : List SecretObjectData
  deriving DecidableEq, Repr

/-- `v1alpha1.SecretProviderClass`, reduced to `Spec.SecretObjects`. -/
structure SecretProviderClass where
  SecretObjects : List SecretObject
  deriving DecidableEq, Repr

/-- `ctrl.Request`. -/
structure Request where
  Namespace : GoString
  Name : GoString
  deriving DecidableEq, Repr

/-- `ctrl.Result`; `RequeueAfter` is a `time.Duration` in nanoseconds. -/
structure Result where
  Requeue : Bool := false
  RequeueAfter : Nat := 0
  deriving DecidableEq, Repr

/-- `time.Second`. -/
def Second : Nat := 1000000000

/-- `time.Minute`. -/
def Minute : Nat := 60 * Second

/-- `SecretProviderClassPodStatusReconciler`: its `Client`, `Reader` and `Writer`
are the operations of `Env`. -/
structure SecretProviderClassPodStatusReconciler where
  NodeID : GoString
  deriving DecidableEq, Repr

/-! ## The API server and the file system -/

/-- A call the controller issues to the API server or the file system. -/
inductive Call where
  /-- `r.Get` of the pod status -/
  | getStatus (ns name : GoString)
  /-- `r.Reader.Get` of the class declaration -/
  | getClass (ns name : GoString)
  /-- `ioutil.ReadDir` -/
  | readDir (path : GoString)
  /-- `ioutil.ReadFile` -/
  | readFile (path : GoString)
  /-- `r.Client.Get` of a secret -/
  | getSecret (ns name : GoString)
  /-- `r.Writer.Create` -/
  | create (secret : Secret)
  /-- `r.Writer.Patch` of `secret` against the merge base `base`, under optimistic lock -/
  | patch (secret base : Secret)
  deriving DecidableEq, Repr

/-- The behaviour of the API server and the file system, as a machine over a
state `σ`: every operation answers and moves to a next state. -/
structure Env (σ : Type) where
  getStatus : σ → GoString → GoString → Except Error SecretProviderClassPodStatus × σ
  getClass : σ → GoString → GoString → Except Error SecretProviderClass × σ
  readDir : σ → GoString → Except Error (List GoString) × σ
  readFile : σ → GoString → Except Error Bytes × σ
  getSecret : σ → GoString → GoString → Except Error Secret × σ
  create : σ → Secret → Option Error × σ
  patch : σ → Secret → Secret → Option Error × σ

/-- The state of a run: the state of the outside world and the calls issued so far. -/
structure Run (σ : Type) where
  state : σ
  calls : List Call

/-- Issue `r.Get` for the pod status. -/
def Env.doGetStatus {σ : Type} (env : Env σ) (ns name : GoString) (w : Run σ) :
    Except Error SecretProviderClassPodStatus × Run σ :=
  ((env.getStatus w.state ns name).1,
    { state := (env.getStatus w.state ns name).2, calls := w.calls ++ [.getStatus ns name] })

/-- Issue `r.Reader.Get` for the class declaration. -/
def Env.doGetClass {σ : Type} (env : Env σ) (ns name : GoString) (w : Run σ) :
    Except Error SecretProviderClass × Run σ :=
  ((env.getClass w.state ns name).1,
    { state := (env.getClass w.state ns name).2, calls := w.calls ++ [.getClass ns name] })

/-- Issue `ioutil.ReadDir`. -/
def Env.doReadDir {σ : Type} (env : Env σ) (path : GoString) (w : Run σ) :
    Except Error (List GoString) × Run σ :=
  ((env.readDir w.state path).1,
    { state := (env.readDir w.state path).2, calls := w.calls ++ [.readDir path] })

/-- Issue `ioutil.ReadFile`. -/
def Env.doReadFile {σ : Type} (env : Env σ) (path : GoString) (w : Run σ) :
    Except Error Bytes × Run σ :=
  ((env.readFile w.state path).1,
    { state := (env.readFile w.state path).2, calls := w.calls ++ [.readFile path] })

/-- Issue `r.Client.Get` for a secret. -/
def Env.doGetSecret {σ : Type} (env : Env σ) (ns name : GoString) (w : Run σ) :
    Except Error Secret × Run σ :=
  ((env.getSecret w.state ns name).1,
    { state := (env.getSecret w.state ns name).2, calls := w.calls ++ [.getSecret ns name] })

/-- Issue `r.Writer.Create`. -/
def Env.doCreate {σ : Type} (env : Env σ) (secret : Secret) (w : Run σ) :
    Option Error × Run σ :=
  ((env.create w.state secret).1,
    { state := (env.create w.state secret).2, calls := w.calls ++ [.create secret] })

/-- Issue `r.Writer.Patch`. -/
def Env.doPatch {σ : Type} (env : Env σ) (secret base : Secret) (w : Run σ) :
    Option Error × Run σ :=
  ((env.patch w.state secret base).1,
    { state := (env.patch w.state secret base).2, calls := w.calls ++ [.patch secret base] })

/-! ## utils.go: the mounted files -/

/-- `getMountedFiles`. -/
def getMountedFiles {σ : Type} (env : Env σ) (targetPath : GoString) (w : Run σ) :
    Except Error (List (GoString × GoString)) × Run σ :=
  let d := env.doReadDir targetPath w
  match d.1 with
  | .error err => (.error (.internal err), d.2)
  | .ok files =>
    let sep : GoString :=
      if (goStr "c:\\").isPrefixOf targetPath then goStr "\\"
      else if (goStr "c:\\").isPrefixOf targetPath then goStr "\\"
      else goStr "/"
    (.ok (files.foldl (fun paths file => setEntry file (targetPath ++ sep ++ file) paths) []),
      d.2)

/-! ## secretproviderclasspodstatus_controller.go: the store accessors -/

/-- `secretExists`. -/
def secretExists {σ : Type} (env : Env σ) (name ns : GoString) (w : Run σ) :
    Except Error (Bool × DataMap) × Run σ :=
  let g := env.doGetSecret ns name w
  match g.1 with
  | .ok o => (.ok (true, o.Data), g.2)
  | .error err => if err.isNotFound then (.ok (false, none), g.2) else (.error err, g.2)

/-- `createK8sSecret`. -/
def createK8sSecret {σ : Type} (env : Env σ) (name ns : GoString) (datamap : DataMap)
    (secretType : SecretType) (w : Run σ) : Option Error × Run σ :=
  let secret : Secret :=
    { Namespace := ns, Name := name, Type_ := secretType, Data := datamap,
      OwnerReferences := [], ResourceVersion := [] }
  let c := env.doCreate secret w
  match c.1 with
  | none => (none, c.2)
  | some err => if err.isAlreadyExists then (none, c.2) else (some err, c.2)

/-- The part of `patchSecret` after the read: `secret` is what the read left in
the variable, which is also the merge base of the patch. -/
def patchSecretFrom {RSA EC σ : Type} (lib : Lib RSA EC) (env : Env σ)
    (spcPodStatus : SecretProviderClassPodStatus) (data : DataMap) (secret : Secret)
    (w : Run σ) : Option Error × Run σ :=
  match lib.setOwnerReference spcPodStatus secret with
  | .error err => (some err, w)
  | .ok refs =>
    let owned : Secret := { secret with OwnerReferences := refs }
    let patched : Secret := if data.len > 0 then { owned with Data := data } else owned
    env.doPatch patched secret w

/-- `patchSecret`. -/
def patchSecret {RSA EC σ : Type} (lib : Lib RSA EC) (env : Env σ) (name ns : GoString)
    (spcPodStatus : SecretProviderClassPodStatus) (data : DataMap) (w : Run σ) :
    Option Error × Run σ :=
  let g := env.doGetSecret ns name w
  match g.1 with
  | .ok secret => patchSecretFrom lib env spcPodStatus data secret g.2
  | .error err =>
    if !err.isNotFound then (some err, g.2)
    else patchSecretFrom lib env spcPodStatus data Secret.zero g.2

/-! ## secretproviderclasspodstatus_controller.go: Reconcile -/

/-- The closures `Reconcile` appends to `funcs`, named by what they capture. -/
inductive Step where
  /-- `createFn` -/
  | create (name ns : GoString) (datamap : DataMap) (secretType : SecretType)
  /-- `patchFn`, with the value of `dataPatchBytes` -/
  | patch (name ns : GoString) (spcPodStatus : SecretProviderClassPodStatus)
      (dataPatchBytes : DataMap)
  deriving DecidableEq, Repr

/-- Calling a closure of `funcs`: a failure is logged and reported as `(false, nil)`. -/
def Step.run {RSA EC σ : Type} (lib : Lib RSA EC) (env : Env σ) :
    Step → Run σ → (Bool × Option Error) × Run σ
  | .create name ns datamap secretType, w =>
    let r := createK8sSecret env name ns datamap secretType w
    match r.1 with
    | some _ => ((false, none), r.2)
    | none => ((true, none), r.2)
  | .patch name ns spcPodStatus dataPatchBytes, w =>
    let r := patchSecret lib env name ns spcPodStatus dataPatchBytes w
    match r.1 with
    | some _ => ((false, none), r.2)
    | none => ((true, none), r.2)

/-- `wait.ExponentialBackoff` with `Steps: steps`: call the condition until it
reports done or an error, at most `steps` times; the sleeps between calls are
not modelled. -/
def exponentialBackoff {σ : Type} (condition : Run σ → (Bool × Option Error) × Run σ) :
    Nat → Run σ → Option Error × Run σ
  | 0, w => (some .waitTimeout, w)
  | steps + 1, w =>
    let r := condition w
    match r.1.2 with
    | some err => (some err, r.2)
    | none => if r.1.1 then (none, r.2) else exponentialBackoff condition steps r.2

/-- How a loop of `Reconcile` ends: it runs to its end with the errors
collected so far, or a `return` inside it ends the whole pass. -/
inductive Loop (σ α : Type) where
  | done (value : α) (errs : List Error) (w : Run σ)
  | abort (res : Result) (err : Error) (w : Run σ)

/-- The loop over `secretObj.Data` that fills `datamap`. -/
def dataLoop {RSA EC σ : Type} (lib : Lib RSA EC) (env : Env σ)
    (files : List (GoString × GoString)) (idx : Nat) (secretName : GoString)
    (secretType : SecretType) :
    List SecretObjectData → DataMap → List Error → Run σ → Loop σ DataMap
  | [], datamap, errs, w => .done datamap errs w
  | data :: rest, datamap, errs, w =>
    if data.ObjectName.length = 0 then
      dataLoop lib env files idx secretName secretType rest datamap
        (errs ++ [.objectNameEmpty idx secretName]) w
    else if data.Key.length = 0 then
      dataLoop lib env files idx secretName secretType rest datamap
        (errs ++ [.keyEmpty idx secretName]) w
    else
      match lookupEntry data.ObjectName files with
      | none => dataLoop lib env files idx secretName secretType rest datamap errs w
      | some file =>
        let f := env.doReadFile file w
        match f.1 with
        | .error err => .abort {} (.internal err) f.2
        | .ok content =>
          let datamap := datamap.set data.Key content
          if secretType = SecretTypeTLS then
            match getCertPart lib content data.Key with
            | .error err => .abort { RequeueAfter := 5 * Second } (.internal err) f.2
            | .ok c =>
              dataLoop lib env files idx secretName secretType rest
                (datamap.set data.Key c) errs f.2
          else
            dataLoop lib env files idx secretName secretType rest datamap errs f.2

/-- The closures queued for one secret object. -/
def queueSteps (exists_ : Bool) (oldSHAData newSHAData : GoString) (name ns : GoString)
    (spcPodStatus : SecretProviderClassPodStatus) (datamap : DataMap)
    (secretType : SecretType) : List Step :=
  let funcs : List Step := []
  let funcs := if !exists_ then funcs ++ [Step.create name ns datamap secretType] else funcs
  let dataPatchBytes : DataMap :=
    if exists_ && oldSHAData != newSHAData then datamap else none
  funcs ++ [Step.patch name ns spcPodStatus dataPatchBytes]

/-- The loop over `funcs`: each closure runs under the backoff of 5 steps. -/
def runSteps {RSA EC σ : Type} (lib : Lib RSA EC) (env : Env σ) :
    List Step → List Error → Run σ → Loop σ Unit
  | [], errs, w => .done () errs w
  | f :: rest, errs, w =>
    let r := exponentialBackoff (f.run lib env) 5 w
    match r.1 with
    | some err => .abort { RequeueAfter := 5 * Second } err r.2
    | none => runSteps lib env rest errs r.2

/-- One round of the loop over `spc.Spec.SecretObjects`. -/
def reconcileObject {RSA EC σ : Type} (lib : Lib RSA EC) (env : Env σ) (ns : GoString)
    (spcPodStatus : SecretProviderClassPodStatus) (files : List (GoString × GoString))
    (idx : Nat) (secretObj : SecretObject) (errs : List Error) (w : Run σ) : Loop σ Unit :=
  if secretObj.SecretName.length = 0 then
    .done () (errs ++ [.secretNameEmpty idx]) w
  else if secretObj.Type_.length = 0 then
    .done () (errs ++ [.secretTypeEmpty idx secretObj.SecretName]) w
  else if secretObj.Data.length = 0 then
    .done () (errs ++ [.dataEmpty idx secretObj.SecretName]) w
  else
    let e := secretExists env secretObj.SecretName ns w
    match e.1 with
    | .error err => .done () (errs ++ [.existsCheckFailed secretObj.SecretName err]) e.2
    | .ok (exists_, currentData) =>
      match getSHAfromSecret lib.sha1 currentData with
      | .error err => .done () (errs ++ [.shaFailed secretObj.SecretName err]) e.2
      | .ok oldSHAData =>
        let secretType := getSecretType secretObj.Type_
        match dataLoop lib env files idx secretObj.SecretName secretType secretObj.Data
            (some []) errs e.2 with
        | .abort res err w' => .abort res err w'
        | .done datamap errs w' =>
          match getSHAfromSecret lib.sha1 datamap with
          | .error err => .done () (errs ++ [.shaFailed secretObj.SecretName err]) w'
          | .ok newSHAData =>
            runSteps lib env
              (queueSteps exists_ oldSHAData newSHAData secretObj.SecretName ns
                spcPodStatus datamap secretType) errs w'

/-- The loop over `spc.Spec.SecretObjects`, from index `idx` on. -/
def reconcileLoop {RSA EC σ : Type} (lib : Lib RSA EC) (env : Env σ) (ns : GoString)
    (spcPodStatus : SecretProviderClassPodStatus) (files : List (GoString × GoString)) :
    Nat → List SecretObject → List Error → Run σ → Loop σ Unit
  | _, [], errs, w => .done () errs w
  | idx, secretObj :: rest, errs, w =>
    match reconcileObject lib env ns spcPodStatus files idx secretObj errs w with
    | .abort res err w' => .abort res err w'
    | .done _ errs w' => reconcileLoop lib env ns spcPodStatus files (idx + 1) rest errs w'

/-- `GetDeletionTimestamp().IsZero()`. -/
def SecretProviderClassPodStatus.deletionTimestampIsZero
    (s : SecretProviderClassPodStatus) : Bool :=
  match s.DeletionTimestamp with
  | none => true
  | some t => t == 0

/-- `Reconcile`, from the listing of the mounted files on. -/
def reconcileMounted {RSA EC σ : Type} (lib : Lib RSA EC) (env : Env σ) (req : Request)
    (spcPodStatus : SecretProviderClassPodStatus) (spc : SecretProviderClass) (w : Run σ) :
    (Result × Option Error) × Run σ :=
  let m := getMountedFiles env spcPodStatus.TargetPath w
  match m.1 with
  | .error err => (({ RequeueAfter := 10 * Second }, some err), m.2)
  | .ok files =>
    match reconcileLoop lib env req.Namespace spcPodStatus files 0 spc.SecretObjects [] m.2 with
    | .abort res err w' => ((res, some err), w')
    | .done _ errs w' =>
      if errs.length > 0 then (({ Requeue := true }, none), w')
      else (({ RequeueAfter := 5 * Minute }, none), w')

/-- `Reconcile`. -/
def Reconcile {RSA EC σ : Type} (lib : Lib RSA EC) (env : Env σ)
    (r : SecretProviderClassPodStatusReconciler) (req : Request) (w : Run σ) :
    (Result × Option Error) × Run σ :=
  let g := env.doGetStatus req.Namespace req.Name w
  match g.1 with
  | .error err =>
    if err.isNotFound then (({}, none), g.2) else (({}, some err), g.2)
  | .ok spcPodStatus =>
    if !spcPodStatus.deletionTimestampIsZero then (({}, none), g.2)
    else
      match lookupEntry lib.internalNodeLabel spcPodStatus.Labels with
      | none => (({}, none), g.2)
      | some node =>
        if !lib.equalFold node r.NodeID then (({}, none), g.2)
        else
          let spcName := spcPodStatus.SecretProviderClassName
          let c := env.doGetClass req.Namespace spcName g.2
          match c.1 with
          | .error err =>
            if err.isNotFound then (({ RequeueAfter := 5 * Second }, none), c.2)
            else (({}, some err), c.2)
          | .ok spc =>
            if spc.SecretObjects.length = 0 then (({}, none), c.2)
            else reconcileMounted lib env req spcPodStatus spc c.2

/-! ## A reference environment

An in-memory API server and file system, and small stand-ins for the library
functions, on which the theorems below are instantiated. -/

/-- What the reference environment holds besides the secrets: the pod statuses
and class declarations of the cluster and the files of the node. -/
structure Cluster where
  statuses : List SecretProviderClassPodStatus
  classes : List (GoString × GoString × SecretProviderClass)
  /-- the file names of each directory -/
  dirs : List (GoString × List GoString)
  /-- the content of each file, by path -/
  contents : List (GoString × Bytes)

/-- The file system of a cluster: the content of the file at a path. -/
def memFS (c : Cluster) (path : GoString) : Except Error Bytes :=
  match lookupEntry path c.contents with
  | some content => .ok content
  | none => .error (.other 2)

/-- The stored secret with this namespace and name. -/
def findSecret (ns name : GoString) : List Secret → Option Secret
  | [] => none
  | s :: rest => if s.Namespace = ns ∧ s.Name = name then some s else findSecret ns name rest

/-- Replace the stored secret that has the namespace and name of `secret`. -/
def replaceSecret (secret : Secret) : List Secret → List Secret
  | [] => []
  | s :: rest =>
    if s.Namespace = secret.Namespace ∧ s.Name = secret.Name then secret :: rest
    else s :: replaceSecret secret rest

/-- The reference environment over a cluster: its state is the list of stored
secrets. A create of a present secret answers already-exists; a patch of an
absent secret answers not-found, a patch against a stale base answers a conflict. -/
def memEnv (c : Cluster) : Env (List Secret) where
  getStatus := fun st ns name =>
    match c.statuses.find? (fun s => s.Namespace = ns ∧ s.Name = name) with
    | some s => (.ok s, st)
    | none => (.error .notFound, st)
  getClass := fun st ns name =>
    match c.classes.find? (fun x => x.1 = ns ∧ x.2.1 = name) with
    | some x => (.ok x.2.2, st)
    | none => (.error .notFound, st)
  readDir := fun st path =>
    match lookupEntry path c.dirs with
    | some names => (.ok names, st)
    | none => (.error (.other 2), st)
  readFile := fun st path => (memFS c path, st)
  getSecret := fun st ns name =>
    match findSecret ns name st with
    | some s => (.ok s, st)
    | none => (.error .notFound, st)
  create := fun st secret =>
    match findSecret secret.Namespace secret.Name st with
    | some _ => (some .alreadyExists, st)
    | none => (none, st ++ [secret])
  patch := fun st secret base =>
    match findSecret secret.Namespace secret.Name st with
    | none => (some .notFound, st)
    | some s =>
      if s.ResourceVersion = base.ResourceVersion then (none, replaceSecret secret st)
      else (some (.other 409), st)

/-- The ASCII lower-case form of a byte. -/
def lowerByte (b : Byte) : Byte := if 65 ≤ b.val ∧ b.val ≤ 90 then Fin.ofNat (b.val + 32) else b

/-- A stand-in block decoder: a non-empty input is one block, of type
`CERTIFICATE` when its first byte is 0 and `PRIVATE KEY` otherwise, whose
payload is the rest of the input. -/
def toyPemDecode : Bytes → Option (PemBlock × Bytes)
  | [] => none
  | tag :: payload =>
    some ({ Type_ := if tag = 0 then certType else goStr "PRIVATE KEY", Headers := [],
            Bytes := payload }, [])

/-- The owner reference of a pod status. -/
def ownerRefOf (s : SecretProviderClassPodStatus) : OwnerReference :=
  { APIVersion := goStr "secrets-store.csi.x-k8s.io/v1alpha1",
    Kind := goStr "SecretProviderClassPodStatus", Name := s.Name, UID := s.UID }

/-- Stand-ins for the library functions. Keys are kept as their payload. The
PKCS#1 decoder accepts a payload that starts with 1, the PKCS#8 decoder one
that starts with 8 (RSA), 9 (ECDSA) or 10 (another algorithm), the SEC1
decoder one that starts with 2, so that at most one decoder accepts a payload;
marshalling puts 1 (PKCS#1) or 2 (SEC1) before the key. Setting the owner
reference fails when the object is not in the namespace of the owner. -/
def toyLib : Lib Bytes Bytes where
  sha1 := id
  equalFold := fun a b => a.map lowerByte = b.map lowerByte
  pemDecode := toyPemDecode
  pemEncodeToMemory := fun b => (if b.Type_ = certType then 0 else 1) :: b.Bytes
  parsePKCS1PrivateKey := fun der =>
    if der.head? = some 1 then .ok der else .error (.other 1)
  parsePKCS8PrivateKey := fun der =>
    if der.head? = some 8 then .ok (.rsa der)
    else if der.head? = some 9 then .ok (.ecdsa der)
    else if der.head? = some 10 then .ok .otherKey
    else .error (.other 8)
  parseECPrivateKey := fun der =>
    if der.head? = some 2 then .ok der else .error (.other 3)
  marshalPKCS1PrivateKey := fun key => 1 :: key
  marshalECPrivateKey := fun key => .ok (2 :: key)
  setOwnerReference := fun s object =>
    if s.Namespace ≠ [] ∧ object.Namespace ≠ s.Namespace then .error (.other 4)
    else .ok (object.OwnerReferences.filter (fun r => r.UID ≠ s.UID) ++ [ownerRefOf s])
  internalNodeLabel := goStr "internal.secrets-store.csi.k8s.io/node-name"
  pemDecode_shrinks := by
    intro data block rest h
    cases data with
    | nil => simp [toyPemDecode] at h
    | cons tag payload =>
      simp only [toyPemDecode, Option.some.injEq, Prod.mk.injEq] at h
      rw [← h.2]
      simp

/-- A pod status of node `node-1`. -/
def demoStatus : SecretProviderClassPodStatus :=
  { Namespace := goStr "default", Name := goStr "pod-1", UID := goStr "uid-1",
    DeletionTimestamp := none,
    Labels := [(goStr "internal.secrets-store.csi.k8s.io/node-name", goStr "Node-1")],
    SecretProviderClassName := goStr "spc", TargetPath := goStr "/mnt" }

/-- A cluster with `demoStatus`, a class declaring `objs`, and the files
`/mnt/cert.pem` and `/mnt/key.pem`. -/
def demoCluster (objs : List SecretObject) : Cluster :=
  { statuses := [demoStatus],
    classes := [(goStr "default", goStr "spc", { SecretObjects := objs })],
    dirs := [(goStr "/mnt", [goStr "cert.pem", goStr "key.pem"])],
    contents := [(goStr "/mnt/cert.pem", 0 :: goStr "cert"),
                 (goStr "/mnt/key.pem", 7 :: goStr "key")] }

/-- The request for `demoStatus`. -/
def demoRequest : Request := { Namespace := goStr "default", Name := goStr "pod-1" }

/-- The reconciler of node `node-1`. -/
def demoReconciler : SecretProviderClassPodStatusReconciler := { NodeID := goStr "node-1" }

/-- A run that starts from the stored secrets `st` with no call issued. -/
def startRun (st : List Secret) : Run (List Secret) := { state := st, calls := [] }

/-- An opaque secret object fed from `cert.pem`. -/
def demoOpaque : SecretObject :=
  { SecretName := goStr "s", Type_ := goStr "Opaque",
    Data := [{ ObjectName := goStr "cert.pem", Key := goStr "crt" }] }

/-- A stored secret `default/s` with one entry. -/
def demoSecret : Secret :=
  { Namespace := goStr "default", Name := goStr "s", Type_ := SecretTypeOpaque,
    Data := some [(goStr "k", goStr "v")], OwnerReferences := [],
    ResourceVersion := goStr "1" }

/-! ## Notions used in the statements -/

/-- The secret object fails the validation of name, type and data at the head
of the loop. -/
def SecretObject.skipped (o : SecretObject) : Bool :=
  o.SecretName.length = 0 || o.Type_.length = 0 || o.Data.length = 0

/-- Some data entry of the secret object has an empty object name or key. -/
def SecretObject.badEntry (o : SecretObject) : Bool :=
  o.Data.any (fun d => d.ObjectName.length = 0 || d.Key.length = 0)

/-- Two loop outcomes agree on everything but the collected errors. -/
def Loop.agree {σ α : Type} : Loop σ α → Loop σ α → Prop
  | .done v _ w, .done v' _ w' => v = v' ∧ w = w'
  | .abort res err w, .abort res' err' w' => res = res' ∧ err = err' ∧ w = w'
  | _, _ => False

/-- `Reconcile` called in run `w` gets as far as its loop over the secret
objects: the pod status is found, is not being deleted and belongs to this
node, the class declaration `spc` is found and declares a secret object, and
the mounted files are listed as `files`, which leaves the run at `wl`. -/
def ReachesObjects {RSA EC σ : Type} (lib : Lib RSA EC) (env : Env σ)
    (r : SecretProviderClassPodStatusReconciler) (req : Request) (w : Run σ)
    (spcPodStatus : SecretProviderClassPodStatus) (spc : SecretProviderClass)
    (files : List (GoString × GoString)) (wl : Run σ) : Prop :=
  (env.doGetStatus req.Namespace req.Name w).1 = .ok spcPodStatus ∧
  spcPodStatus.deletionTimestampIsZero = true ∧
  (∃ node, lookupEntry lib.internalNodeLabel spcPodStatus.Labels = some node ∧
    lib.equalFold node r.NodeID = true) ∧
  (env.doGetClass req.Namespace spcPodStatus.SecretProviderClassName
    (env.doGetStatus req.Namespace req.Name w).2).1 = .ok spc ∧
  spc.SecretObjects ≠ [] ∧
  getMountedFiles env spcPodStatus.TargetPath
    (env.doGetClass req.Namespace spcPodStatus.SecretProviderClassName
      (env.doGetStatus req.Namespace req.Name w).2).2 = (.ok files, wl)

/-- `v` is what the data loop stores under `key` for a file of this content: the
content itself, or for a TLS secret what `getCertPart` extracts from it. -/
def storedValue {RSA EC : Type} (lib : Lib RSA EC) (secretType : SecretType)
    (content : Bytes) (key : GoString) (v : Bytes) : Prop :=
  if secretType = SecretTypeTLS then getCertPart lib content key = .ok v else v = content

/-- A secret object with an empty name. -/
def demoNameless : SecretObject :=
  { SecretName := [], Type_ := goStr "Opaque",
    Data := [{ ObjectName := goStr "cert.pem", Key := goStr "crt" }] }

/-- A TLS secret object whose destination key is neither `tls.key` nor `tls.crt`. -/
def demoBadTLS : SecretObject :=
  { SecretName := goStr "tls-secret", Type_ := goStr "kubernetes.io/tls",
    Data := [{ ObjectName := goStr "cert.pem", Key := goStr "other" }] }

/-- The mounted files of `demoCluster`. -/
def demoFiles : List (GoString × GoString) :=
  [(goStr "cert.pem", goStr "/mnt/cert.pem"), (goStr "key.pem", goStr "/mnt/key.pem")]

/-- An opaque secret object with one entry fed from `cert.pem` and one from a
file that is not mounted. -/
def demoPartial : SecretObject :=
  { SecretName := goStr "s", Type_ := goStr "Opaque",
    Data := [{ ObjectName := goStr "missing.pem", Key := goStr "gone" },
             { ObjectName := goStr "cert.pem", Key := goStr "crt" }] }

/-- The secret `createK8sSecret` builds. -/
def newSecret (name ns : GoString) (datamap : DataMap) (secretType : SecretType) : Secret :=
  { Namespace := ns, Name := name, Type_ := secretType, Data := datamap,
    OwnerReferences := [], ResourceVersion := [] }

/-- A store in which `present` tells which secrets are stored answers a create
of a present secret with already-exists and stays as it is, and accepts a
create of an absent secret, which is present afterwards. -/
def CreateLaws {σ : Type} (env : Env σ) (present : σ → GoString → GoString → Bool) : Prop :=
  (∀ s sec, present s sec.Namespace sec.Name = true →
    env.create s sec = (some .alreadyExists, s)) ∧
  (∀ s sec, present s sec.Namespace sec.Name = false →
    (env.create s sec).1 = none ∧ present (env.create s sec).2 sec.Namespace sec.Name = true)

/-- The calls of `w'` continue those of `w`. -/
def Run.before {σ : Type} (w w' : Run σ) : Prop := ∃ more, w'.calls = w.calls ++ more

/-- The run a loop ends in. -/
def Loop.run {σ α : Type} : Loop σ α → Run σ
  | .done _ _ w => w
  | .abort _ _ w => w

/-- A pod status labelled with another node. -/
def otherNodeStatus : SecretProviderClassPodStatus :=
  { demoStatus with
    Labels := [(goStr "internal.secrets-store.csi.k8s.io/node-name", goStr "node-2")] }

/-- The cluster of `demoCluster` with the status of the other node in place of
`demoStatus`. -/
def otherCluster : Cluster :=
  { demoCluster [demoOpaque] with statuses := [otherNodeStatus] }

/-- The blocks the loops of `getCert` and `getPrivateKey` see, in order, within
`fuel` rounds. -/
def pemBlocksLoop {RSA EC : Type} (lib : Lib RSA EC) : Nat → Bytes → List PemBlock
  | 0, _ => []
  | fuel + 1, data =>
    match lib.pemDecode data with
    | none => []
    | some (pemBlock, rest) => pemBlock :: pemBlocksLoop lib fuel rest

/-- The PEM blocks of an input. -/
def pemBlocks {RSA EC : Type} (lib : Lib RSA EC) (data : Bytes) : List PemBlock :=
  pemBlocksLoop lib (data.length + 1) data

/-- The output of `getPrivateKey` when no decoder has set `derKey`: one
`RSA PRIVATE KEY` block with an empty payload. -/
def emptyKeyBlock {RSA EC : Type} (lib : Lib RSA EC) : Bytes :=
  lib.pemEncodeToMemory { Type_ := privateKeyType, Headers := [], Bytes := [] }

/-- A TLS secret object whose `tls.key` is fed from `key.pem`. -/
def demoTLSKey : SecretObject :=
  { SecretName := goStr "tls-secret", Type_ := goStr "kubernetes.io/tls",
    Data := [{ ObjectName := goStr "key.pem", Key := goStr "tls.key" }] }

/-- A bundle: the concatenation of the encodings of the blocks, in order. -/
def pemBundle {RSA EC : Type} (lib : Lib RSA EC) (blocks : List PemBlock) : Bytes :=
  (blocks.map lib.pemEncodeToMemory).flatten

/-- The block is canonically encoded by `pem.EncodeToMemory`: `pem.Decode` reads
it back from the front of any input that starts with its encoding, and leaves
what follows as the rest. -/
def CanonicalBlock {RSA EC : Type} (lib : Lib RSA EC) (b : PemBlock) : Prop :=
  ∀ rest, lib.pemDecode (lib.pemEncodeToMemory b ++ rest) = some (b, rest)

/-- The blocks of type `CERTIFICATE`, in order. -/
def certBlocks (blocks : List PemBlock) : List PemBlock :=
  blocks.filter (fun b => b.Type_ = certType)

/-- A stand-in block encoder with a length: a tag (0 for `CERTIFICATE`), the
length of the payload, the payload. -/
def framedPemEncode (b : PemBlock) : Bytes :=
  (if b.Type_ = certType then 0 else 1) :: Fin.ofNat b.Bytes.length :: b.Bytes

/-- The decoder of `framedPemEncode`: it reads one block from the front of the
input when the input holds the announced payload. -/
def framedPemDecode : Bytes → Option (PemBlock × Bytes)
  | tag :: n :: body =>
    if n.val ≤ body.length then
      some ({ Type_ := if tag = 0 then certType else goStr "PRIVATE KEY", Headers := [],
              Bytes := body.take n.val }, body.drop n.val)
    else none
  | _ => none

/-- The stand-in library with the framed block encoding. -/
def framedLib : Lib Bytes Bytes :=
  { toyLib with
    pemDecode := framedPemDecode
    pemEncodeToMemory := framedPemEncode
    pemDecode_shrinks := by
      intro data block rest h
      match data, h with
      | tag :: n :: body, h =>
        simp only [framedPemDecode] at h
        split at h
        · simp only [Option.some.injEq, Prod.mk.injEq] at h
          rw [← h.2]
          simp only [List.length_drop, List.length_cons]
          omega
        · cases h }

/-- A certificate block. -/
def demoCertBlock : PemBlock := { Type_ := certType, Headers := [], Bytes := goStr "cert" }

/-- A private-key block. -/
def demoKeyBlock : PemBlock :=
  { Type_ := goStr "PRIVATE KEY", Headers := [], Bytes := goStr "key" }

/-- At most one of the three decoders accepts the payload: a payload PKCS#1
accepts is rejected by PKCS#8 and SEC1, and one PKCS#8 accepts is rejected by
SEC1. Go's parsers meet this: after the version they require an INTEGER
(PKCS#1), a SEQUENCE (PKCS#8) or an OCTET STRING (SEC1). -/
def DecodersExclusive {RSA EC : Type} (lib : Lib RSA EC) (der : Bytes) : Prop :=
  ((∃ key, lib.parsePKCS1PrivateKey der = .ok key) →
    (∃ e, lib.parsePKCS8PrivateKey der = .error e) ∧
    (∃ e, lib.parseECPrivateKey der = .error e)) ∧
  ((∃ key, lib.parsePKCS8PrivateKey der = .ok key) →
    ∃ e, lib.parseECPrivateKey der = .error e)

/-- First-success-wins, after the words of the specification: the decoders are
tried in the order PKCS#1, PKCS#8, SEC1 and the first one that succeeds gives
the key, which is re-encoded; if none succeeds the key bytes are empty. -/
def firstSuccessfulDecode {RSA EC : Type} (lib : Lib RSA EC) (der : Bytes) :
    Except Error Bytes :=
  match lib.parsePKCS1PrivateKey der with
  | .ok key => .ok (lib.marshalPKCS1PrivateKey key)
  | .error _ =>
    match lib.parsePKCS8PrivateKey der with
    | .ok (.rsa key) => .ok (lib.marshalPKCS1PrivateKey key)
    | .ok (.ecdsa key) => lib.marshalECPrivateKey key
    | .ok .otherKey => .error .unknownPrivateKeyType
    | .error _ =>
      match lib.parseECPrivateKey der with
      | .ok key => lib.marshalECPrivateKey key
      | .error _ => .ok []

/-! # Theorems -/

/-! ## Lemmas on the string order -/

theorem strLess_irrefl (a : GoString) : strLess a a = false := by
  induction a with
  | nil => rfl
  | cons x xs ih => simp [strLess, ih]

theorem strLess_asymm : ∀ a b : GoString, strLess a b = true → strLess b a = false
  | [], [] => by simp [strLess]
  | [], _ :: _ => by simp [strLess]
  | _ :: _, [] => by simp [strLess]
  | x :: xs, y :: ys => by
    intro h
    rcases lt_trichotomy x y with hxy | hxy | hxy
    · simp [strLess, hxy, not_lt_of_lt hxy]
    · subst hxy
      simp only [strLess, lt_irrefl, if_false] at h ⊢
      exact strLess_asymm xs ys h
    · simp [strLess, hxy, not_lt_of_lt hxy] at h

theorem strLess_trans : ∀ a b c : GoString,
    strLess a b = true → strLess b c = true → strLess a c = true
  | [], b, [] => by
    intro h1 h2
    cases b <;> simp [strLess] at h1 h2
  | [], _, _ :: _ => by simp [strLess]
  | _ :: _, [], _ => by simp [strLess]
  | _ :: _, _ :: _, [] => by simp [strLess]
  | x :: xs, y :: ys, z :: zs => by
    intro h1 h2
    rcases lt_trichotomy x y with hxy | hxy | hxy
    · rcases lt_trichotomy y z with hyz | hyz | hyz
      · simp [strLess, lt_trans hxy hyz]
      · subst hyz; simp [strLess, hxy]
      · simp [strLess, hyz, not_lt_of_lt hyz] at h2
    · subst hxy
      rcases lt_trichotomy x z with hyz | hyz | hyz
      · simp [strLess, hyz]
      · subst hyz
        simp only [strLess, lt_irrefl, if_false] at h1 h2 ⊢
        exact strLess_trans xs ys zs h1 h2
      · simp [strLess, hyz, not_lt_of_lt hyz] at h2
    · simp [strLess, hxy, not_lt_of_lt hxy] at h1

theorem strLess_connex : ∀ a b : GoString,
    strLess a b = false → strLess b a = false → a = b
  | [], [] => by simp
  | [], _ :: _ => by simp [strLess]
  | _ :: _, [] => by simp [strLess]
  | x :: xs, y :: ys => by
    intro h1 h2
    rcases lt_trichotomy x y with hxy | hxy | hxy
    · simp [strLess, hxy] at h1
    · subst hxy
      simp only [strLess, lt_irrefl, if_false] at h1 h2
      rw [strLess_connex xs ys h1 h2]
    · simp [strLess, hxy] at h2

theorem strLE_total : IsTotal GoString strLE where
  total a b := by
    unfold strLE
    cases h : strLess b a
    · exact Or.inl rfl
    · exact Or.inr (strLess_asymm b a h)

theorem strLE_trans : IsTrans GoString strLE where
  trans a b c hab hbc := by
    unfold strLE at *
    cases h : strLess c a
    · rfl
    · cases hcb : strLess c b
      · cases hba : strLess a b
        · have := strLess_connex a b hba hab
          subst this
          rw [h] at hcb; cases hcb
        · have := strLess_trans c a b h hba
          rw [this] at hcb; cases hcb
      · rw [hcb] at hbc; cases hbc

theorem strLE_antisymm : IsAntisymm GoString strLE where
  antisymm a b hab hba := strLess_connex a b hba hab

theorem sortStrings_perm {l₁ l₂ : List GoString} (h : l₁.Perm l₂) :
    sortStrings l₁ = sortStrings l₂ := by
  unfold sortStrings
  haveI := strLE_total
  haveI := strLE_trans
  haveI := strLE_antisymm
  apply List.eq_of_perm_of_sorted (r := strLE)
  · exact ((List.perm_insertionSort strLE l₁).trans h).trans
      (List.perm_insertionSort strLE l₂).symm
  · exact List.sorted_insertionSort strLE l₁
  · exact List.sorted_insertionSort strLE l₂

/-! ## C1 -/

/-- C1: `getSHAfromSecret` is independent of the order in which the map's
entries are visited: two entry lists with pairwise distinct keys that are
permutations of each other give the same digest string, and no error. -/
theorem getSHAfromSecret_perm (sha1 : GoString → Bytes)
    (l₁ l₂ : List (GoString × Bytes))
    (_hnodup : (l₁.map Prod.fst).Nodup) (hperm : l₁.Perm l₂) :
    getSHAfromSecret sha1 (some l₁) = getSHAfromSecret sha1 (some l₂) ∧
    ∃ digest, getSHAfromSecret sha1 (some l₁) = .ok digest ∧
      getSHAfromSecret sha1 (some l₂) = .ok digest := by
  have h : getSHAfromSecret sha1 (some l₁) = getSHAfromSecret sha1 (some l₂) := ?_
  · exact ⟨h, _, rfl, h ▸ rfl⟩
  unfold getSHAfromSecret shaInput
  simp only [DataMap.entries]
  rw [sortStrings_perm (hperm.map renderEntry)]

theorem getSHAfromSecret_perm_witness :
    getSHAfromSecret id (some [(goStr "a", goStr "1"), (goStr "b", goStr "2")]) =
      getSHAfromSecret id (some [(goStr "b", goStr "2"), (goStr "a", goStr "1")]) ∧
    ∃ digest, getSHAfromSecret id
        (some [(goStr "a", goStr "1"), (goStr "b", goStr "2")]) = .ok digest ∧
      getSHAfromSecret id
        (some [(goStr "b", goStr "2"), (goStr "a", goStr "1")]) = .ok digest :=
  getSHAfromSecret_perm id _ _ (by decide) (by decide)

/-! ## C2 -/

theorem hexDigit_inj : ∀ d d' : Fin 16, hexDigit d.val = hexDigit d'.val → d = d' := by
  unfold hexDigit
  decide

theorem hexByte_inj (b b' : Byte) (h : hexByte b = hexByte b') : b = b' := by
  unfold hexByte at h
  simp only [List.cons.injEq, and_true] at h
  have h1 := hexDigit_inj ⟨b.val / 16, by omega⟩ ⟨b'.val / 16, by omega⟩ h.1
  have h2 := hexDigit_inj ⟨b.val % 16, by omega⟩ ⟨b'.val % 16, by omega⟩ h.2
  simp only [Fin.mk.injEq] at h1 h2
  ext
  omega

theorem hexEncode_inj : ∀ a b : Bytes, hexEncode a = hexEncode b → a = b
  | [], [] => fun _ => rfl
  | [], y :: ys => by simp [hexEncode, hexByte]
  | x :: xs, [] => by simp [hexEncode, hexByte]
  | x :: xs, y :: ys => by
    intro h
    have h' : hexByte x ++ hexEncode xs = hexByte y ++ hexEncode ys := by
      simpa [hexEncode] using h
    have hx : hexByte x = hexByte y ∧ hexEncode xs = hexEncode ys := by
      simp only [hexByte, List.cons_append, List.nil_append, List.cons.injEq] at h' ⊢
      exact ⟨⟨h'.1, h'.2.1, trivial⟩, h'.2.2⟩
    rw [hexByte_inj x y hx.1, hexEncode_inj xs ys hx.2]

/-- The key of a rendered entry ends at its first `=`. -/
theorem split_at_eq : ∀ (k k' : GoString) (r r' : GoString),
    eqByte ∉ k → eqByte ∉ k' → k ++ eqByte :: r = k' ++ eqByte :: r' → k = k' ∧ r = r'
  | [], [], r, r' => by simp
  | [], y :: ys, r, r' => by
    intro _ h2 h
    simp only [List.nil_append, List.cons_append, List.cons.injEq] at h
    exact absurd (h.1 ▸ List.mem_cons_self _ _) h2
  | x :: xs, [], r, r' => by
    intro h1 _ h
    simp only [List.nil_append, List.cons_append, List.cons.injEq] at h
    exact absurd (h.1 ▸ List.mem_cons_self _ _) h1
  | x :: xs, y :: ys, r, r' => by
    intro h1 h2 h
    simp only [List.cons_append, List.cons.injEq] at h
    have ih := split_at_eq xs ys r r' (fun hm => h1 (List.mem_cons_of_mem _ hm))
      (fun hm => h2 (List.mem_cons_of_mem _ hm)) h.2
    exact ⟨by rw [h.1, ih.1], ih.2⟩

/-- A value without `;` ends at the next `;` or at the end of the string. -/
theorem split_at_semi : ∀ (v v' : GoString) (t t' : GoString),
    semiByte ∉ v → semiByte ∉ v' →
    (t = [] ∨ ∃ t₀, t = semiByte :: t₀) → (t' = [] ∨ ∃ t₀, t' = semiByte :: t₀) →
    v ++ t = v' ++ t' → v = v' ∧ t = t'
  | [], [], t, t' => by simp
  | [], y :: ys, t, t' => by
    intro _ h2 ht _ h
    rcases ht with ht | ⟨t₀, ht⟩
    · subst ht; simp at h
    · subst ht
      simp only [List.nil_append, List.cons_append, List.cons.injEq] at h
      exact absurd (h.1 ▸ List.mem_cons_self _ _) h2
  | x :: xs, [], t, t' => by
    intro h1 _ _ ht h
    rcases ht with ht | ⟨t₀, ht⟩
    · subst ht; simp at h
    · subst ht
      simp only [List.nil_append, List.cons_append, List.cons.injEq] at h
      exact absurd (h.1 ▸ List.mem_cons_self _ _) h1
  | x :: xs, y :: ys, t, t' => by
    intro h1 h2 ht ht' h
    simp only [List.cons_append, List.cons.injEq] at h
    have ih := split_at_semi xs ys t t' (fun hm => h1 (List.mem_cons_of_mem _ hm))
      (fun hm => h2 (List.mem_cons_of_mem _ hm)) ht ht' h.2
    exact ⟨by rw [h.1, ih.1], ih.2⟩

theorem stringsJoin_cons (a : GoString) (rest : List GoString) :
    stringsJoin [semiByte] (a :: rest) = a ++ joinTail rest := by
  cases rest <;> simp [stringsJoin, joinTail]

theorem joinTail_shape (rest : List GoString) :
    joinTail rest = [] ∨ ∃ t₀, joinTail rest = semiByte :: t₀ := by
  cases rest
  · exact Or.inl rfl
  · exact Or.inr ⟨_, rfl⟩

/-- Joining well-formed entries with `;` loses nothing. -/
theorem stringsJoin_inj : ∀ E₁ E₂ : List GoString,
    (∀ e ∈ E₁, WellFormedEntry e) → (∀ e ∈ E₂, WellFormedEntry e) →
    stringsJoin [semiByte] E₁ = stringsJoin [semiByte] E₂ → E₁ = E₂
  | [], [] => fun _ _ _ => rfl
  | [], b :: r₂ => by
    intro _ h2 h
    obtain ⟨k, v, hb, -, -⟩ := h2 b (List.mem_cons_self _ _)
    rw [stringsJoin_cons, hb] at h
    simp [stringsJoin] at h
  | a :: r₁, [] => by
    intro h1 _ h
    obtain ⟨k, v, ha, -, -⟩ := h1 a (List.mem_cons_self _ _)
    rw [stringsJoin_cons, ha] at h
    simp [stringsJoin] at h
  | a :: r₁, b :: r₂ => by
    intro h1 h2 h
    obtain ⟨k, v, ha, hk, hv⟩ := h1 a (List.mem_cons_self _ _)
    obtain ⟨k', v', hb, hk', hv'⟩ := h2 b (List.mem_cons_self _ _)
    rw [stringsJoin_cons, stringsJoin_cons, ha, hb] at h
    simp only [List.append_assoc, List.cons_append] at h
    obtain ⟨hkk, hrest⟩ := split_at_eq k k' _ _ hk hk' h
    obtain ⟨hvv, htail⟩ := split_at_semi v v' _ _ hv hv'
      (joinTail_shape r₁) (joinTail_shape r₂) hrest
    have hab : a = b := by rw [ha, hb, hkk, hvv]
    have hr : r₁ = r₂ := by
      cases r₁ with
      | nil =>
        cases r₂ with
        | nil => rfl
        | cons c r₂ => simp [joinTail] at htail
      | cons c r₁ =>
        cases r₂ with
        | nil => simp [joinTail] at htail
        | cons d r₂ =>
          simp only [joinTail, List.cons.injEq, true_and] at htail
          exact stringsJoin_inj (c :: r₁) (d :: r₂)
            (fun e he => h1 e (List.mem_cons_of_mem _ he))
            (fun e he => h2 e (List.mem_cons_of_mem _ he)) htail
    rw [hab, hr]

theorem lookup_unique : ∀ (l : List (GoString × Bytes)) (k : GoString) (v v' : Bytes),
    (l.map Prod.fst).Nodup → (k, v) ∈ l → (k, v') ∈ l → v = v'
  | [], _, _, _ => by simp
  | (k₀, v₀) :: rest, k, v, v' => by
    intro hnd h1 h2
    simp only [List.map_cons, List.nodup_cons, List.mem_map, Prod.exists, exists_and_right,
      exists_eq_right, not_exists] at hnd
    simp only [List.mem_cons, Prod.mk.injEq] at h1 h2
    rcases h1 with ⟨hk, hv⟩ | h1
    · rcases h2 with ⟨_, hv'⟩ | h2
      · rw [hv, hv']
      · exact absurd h2 (hk ▸ hnd.1 v')
    · rcases h2 with ⟨hk, _⟩ | h2
      · exact absurd h1 (hk ▸ hnd.1 v)
      · exact lookup_unique rest k v v' hnd.2 h1 h2

/-- C2 (as stated, refuted): the maps `{a: "1;b=2", b: "3"}` and
`{a: "1", b: "2;b=3"}` have the same keys and different values for `a`, yet
their sorted, joined entries are the same string `a=1;b=2;b=3`, so every hash
gives them the same digest. -/
theorem shaInput_collision :
    (collisionMap₁.map Prod.fst).Nodup ∧ (collisionMap₂.map Prod.fst).Nodup ∧
    collisionMap₁.map Prod.fst = collisionMap₂.map Prod.fst ∧
    lookupEntry (goStr "a") collisionMap₁ ≠ lookupEntry (goStr "a") collisionMap₂ ∧
    shaInput (some collisionMap₁) = goStr "a=1;b=2;b=3" ∧
    shaInput (some collisionMap₂) = goStr "a=1;b=2;b=3" ∧
    ∀ sha1 : GoString → Bytes,
      getSHAfromSecret sha1 (some collisionMap₁) = getSHAfromSecret sha1 (some collisionMap₂) := by
  have h₁ : shaInput (some collisionMap₁) = goStr "a=1;b=2;b=3" := by decide
  have h₂ : shaInput (some collisionMap₂) = goStr "a=1;b=2;b=3" := by decide
  refine ⟨by decide, by decide, by decide, by decide, h₁, h₂, ?_⟩
  intro sha1
  unfold getSHAfromSecret
  rw [h₁, h₂]

/-- C2 (amended): for two maps with pairwise distinct keys and the same key
set, no key containing the byte `=` and no value containing the byte `;`, whose
values differ for some key, the sorted entries joined with `;` are different
strings, and `getSHAfromSecret` returns different digests whenever the hash
gives these two strings different sums. -/
theorem shaInput_separates (l₁ l₂ : List (GoString × Bytes))
    (_hnd₁ : (l₁.map Prod.fst).Nodup) (hnd₂ : (l₂.map Prod.fst).Nodup)
    (_hsame : (∀ k ∈ l₁.map Prod.fst, k ∈ l₂.map Prod.fst) ∧
      (∀ k ∈ l₂.map Prod.fst, k ∈ l₁.map Prod.fst))
    (hk₁ : ∀ kv ∈ l₁, eqByte ∉ kv.1) (hk₂ : ∀ kv ∈ l₂, eqByte ∉ kv.1)
    (hv₁ : ∀ kv ∈ l₁, semiByte ∉ kv.2) (hv₂ : ∀ kv ∈ l₂, semiByte ∉ kv.2)
    (k : GoString) (v₁ v₂ : Bytes)
    (h₁ : (k, v₁) ∈ l₁) (h₂ : (k, v₂) ∈ l₂) (hne : v₁ ≠ v₂) :
    shaInput (some l₁) ≠ shaInput (some l₂) ∧
    ∀ sha1 : GoString → Bytes,
      sha1 (shaInput (some l₁)) ≠ sha1 (shaInput (some l₂)) →
      getSHAfromSecret sha1 (some l₁) ≠ getSHAfromSecret sha1 (some l₂) := by
  have hwf : ∀ (l : List (GoString × Bytes)), (∀ kv ∈ l, eqByte ∉ kv.1) →
      (∀ kv ∈ l, semiByte ∉ kv.2) → ∀ e ∈ sortStrings (l.map renderEntry),
      WellFormedEntry e := by
    intro l hk hv e he
    have he' : e ∈ l.map renderEntry :=
      (List.perm_insertionSort strLE (l.map renderEntry)).mem_iff.mp he
    obtain ⟨kv, hkv, rfl⟩ := List.mem_map.mp he'
    exact ⟨kv.1, kv.2, by simp [renderEntry], hk kv hkv, hv kv hkv⟩
  constructor
  · intro heq
    unfold shaInput at heq
    simp only [DataMap.entries] at heq
    have hsorted := stringsJoin_inj _ _ (hwf l₁ hk₁ hv₁) (hwf l₂ hk₂ hv₂) heq
    have hperm : (l₁.map renderEntry).Perm (l₂.map renderEntry) :=
      ((List.perm_insertionSort strLE _).symm.trans (by
        show (sortStrings (l₁.map renderEntry)).Perm (l₂.map renderEntry)
        rw [hsorted]
        exact List.perm_insertionSort strLE _))
    have hmem : renderEntry (k, v₁) ∈ l₂.map renderEntry :=
      hperm.mem_iff.mp (List.mem_map_of_mem _ h₁)
    obtain ⟨⟨k', v'⟩, hkv', hrender⟩ := List.mem_map.mp hmem
    simp only [renderEntry, List.append_assoc, List.singleton_append] at hrender
    obtain ⟨hk', hv'⟩ := split_at_eq k' k v' v₁ (hk₂ _ hkv') (hk₁ _ h₁) hrender
    subst hk' hv'
    exact hne (lookup_unique l₂ k' v' v₂ hnd₂ hkv' h₂)
  · intro sha1 hsep heq
    unfold getSHAfromSecret generateSHA at heq
    simp only [Except.ok.injEq] at heq
    exact hsep (hexEncode_inj _ _ heq)

theorem shaInput_separates_witness :
    shaInput (some [(goStr "a", goStr "1")]) ≠ shaInput (some [(goStr "a", goStr "2")]) ∧
    ∀ sha1 : GoString → Bytes,
      sha1 (shaInput (some [(goStr "a", goStr "1")])) ≠
        sha1 (shaInput (some [(goStr "a", goStr "2")])) →
      getSHAfromSecret sha1 (some [(goStr "a", goStr "1")]) ≠
        getSHAfromSecret sha1 (some [(goStr "a", goStr "2")]) :=
  shaInput_separates [(goStr "a", goStr "1")] [(goStr "a", goStr "2")]
    (by decide) (by decide) (by decide) (by decide) (by decide) (by decide) (by decide)
    (goStr "a") (goStr "1") (goStr "2") (by decide) (by decide) (by decide)


/-! ## C3 -/

theorem getSHAfromSecret_ok (sha1 : GoString → Bytes) (data : DataMap) :
    getSHAfromSecret sha1 data = .ok (hexEncode (sha1 (shaInput data))) := rfl

/-- Past the validation of name, type and data, a round of the loop over the
secret objects is: existence check, data loop, then the queued closures. -/
theorem reconcileObject_valid {RSA EC σ : Type} (lib : Lib RSA EC) (env : Env σ)
    (ns : GoString) (spcPodStatus : SecretProviderClassPodStatus)
    (files : List (GoString × GoString)) (idx : Nat) (secretObj : SecretObject)
    (errs : List Error) (w : Run σ)
    (hname : secretObj.SecretName ≠ []) (htype : secretObj.Type_ ≠ [])
    (hdata : secretObj.Data ≠ [])
    (exists_ : Bool) (currentData : DataMap)
    (hexists : (secretExists env secretObj.SecretName ns w).1 = .ok (exists_, currentData)) :
    reconcileObject lib env ns spcPodStatus files idx secretObj errs w =
      match dataLoop lib env files idx secretObj.SecretName (getSecretType secretObj.Type_)
          secretObj.Data (some []) errs (secretExists env secretObj.SecretName ns w).2 with
      | .abort res err w' => .abort res err w'
      | .done datamap errs' w' =>
        runSteps lib env
          (queueSteps exists_ (hexEncode (lib.sha1 (shaInput currentData)))
            (hexEncode (lib.sha1 (shaInput datamap))) secretObj.SecretName ns
            spcPodStatus datamap (getSecretType secretObj.Type_)) errs' w' := by
  unfold reconcileObject
  rw [if_neg (by simpa using hname), if_neg (by simpa using htype),
    if_neg (by simpa using hdata)]
  simp only [hexists, getSHAfromSecret_ok]

/-- C3: for a secret object that passes validation, whose existence check
succeeds and whose desired content `datamap` is built, the closures run are:
a create carrying `datamap` then a patch without data when the secret does not
exist; one patch carrying `datamap` when it exists and the digests of the
current and the desired data differ; one patch without data when it exists
and the digests are equal. -/
theorem reconcileObject_decision {RSA EC σ : Type} (lib : Lib RSA EC) (env : Env σ)
    (ns : GoString) (spcPodStatus : SecretProviderClassPodStatus)
    (files : List (GoString × GoString)) (idx : Nat) (secretObj : SecretObject)
    (errs : List Error) (w : Run σ)
    (hname : secretObj.SecretName ≠ []) (htype : secretObj.Type_ ≠ [])
    (hdata : secretObj.Data ≠ [])
    (exists_ : Bool) (currentData : DataMap)
    (hexists : (secretExists env secretObj.SecretName ns w).1 = .ok (exists_, currentData))
    (datamap : DataMap) (errs' : List Error) (w' : Run σ)
    (hbuilt : dataLoop lib env files idx secretObj.SecretName (getSecretType secretObj.Type_)
      secretObj.Data (some []) errs (secretExists env secretObj.SecretName ns w).2 =
        .done datamap errs' w') :
    (exists_ = false →
      reconcileObject lib env ns spcPodStatus files idx secretObj errs w =
        runSteps lib env
          [Step.create secretObj.SecretName ns datamap (getSecretType secretObj.Type_),
           Step.patch secretObj.SecretName ns spcPodStatus none] errs' w') ∧
    (exists_ = true →
      getSHAfromSecret lib.sha1 currentData ≠ getSHAfromSecret lib.sha1 datamap →
      reconcileObject lib env ns spcPodStatus files idx secretObj errs w =
        runSteps lib env [Step.patch secretObj.SecretName ns spcPodStatus datamap] errs' w') ∧
    (exists_ = true →
      getSHAfromSecret lib.sha1 currentData = getSHAfromSecret lib.sha1 datamap →
      reconcileObject lib env ns spcPodStatus files idx secretObj errs w =
        runSteps lib env [Step.patch secretObj.SecretName ns spcPodStatus none] errs' w') := by
  have h := reconcileObject_valid lib env ns spcPodStatus files idx secretObj errs w
    hname htype hdata exists_ currentData hexists
  rw [hbuilt] at h
  simp only at h
  refine ⟨?_, ?_, ?_⟩
  · intro he
    rw [h, he]
    simp [queueSteps]
  · intro he hne
    rw [h, he]
    have : hexEncode (lib.sha1 (shaInput currentData)) ≠
        hexEncode (lib.sha1 (shaInput datamap)) := by
      intro heq
      apply hne
      rw [getSHAfromSecret_ok, getSHAfromSecret_ok, heq]
    simp [queueSteps, this]
  · intro he heq
    rw [h, he]
    have : hexEncode (lib.sha1 (shaInput currentData)) =
        hexEncode (lib.sha1 (shaInput datamap)) := by
      simpa [getSHAfromSecret_ok] using heq
    simp [queueSteps, this]

theorem reconcileObject_decision_witness :
    reconcileObject toyLib (memEnv (demoCluster [demoOpaque])) (goStr "default") demoStatus
        [(goStr "cert.pem", goStr "/mnt/cert.pem")] 0 demoOpaque [] (startRun []) =
      runSteps toyLib (memEnv (demoCluster [demoOpaque]))
        [Step.create (goStr "s") (goStr "default") (some [(goStr "crt", 0 :: goStr "cert")])
           (getSecretType (goStr "Opaque")),
         Step.patch (goStr "s") (goStr "default") demoStatus none] []
        { state := [],
          calls := [.getSecret (goStr "default") (goStr "s"),
                    .readFile (goStr "/mnt/cert.pem")] } :=
  (reconcileObject_decision toyLib (memEnv (demoCluster [demoOpaque])) (goStr "default")
    demoStatus [(goStr "cert.pem", goStr "/mnt/cert.pem")] 0 demoOpaque [] (startRun [])
    (by decide) (by decide) (by decide) false none rfl
    (some [(goStr "crt", 0 :: goStr "cert")]) []
    { state := [],
      calls := [.getSecret (goStr "default") (goStr "s"),
                .readFile (goStr "/mnt/cert.pem")] } rfl).1 rfl

/-! ## C4 -/

/-- C4 (as stated, refuted): called with a non-nil map of zero entries,
`patchSecret` submits the secret with the data it has just read, not with the
empty map. -/
theorem patchSecret_empty_map_keeps_data :
    ((memEnv (demoCluster [])).getSecret [demoSecret] (goStr "default") (goStr "s")).1 =
      .ok demoSecret ∧
    toyLib.setOwnerReference demoStatus demoSecret =
      .ok [ownerRefOf demoStatus] ∧
    (patchSecret toyLib (memEnv (demoCluster [])) (goStr "s") (goStr "default") demoStatus
        (some []) (startRun [demoSecret])).2.calls =
      [.getSecret (goStr "default") (goStr "s"),
       .patch { demoSecret with OwnerReferences := [ownerRefOf demoStatus] } demoSecret] ∧
    ({ demoSecret with OwnerReferences := [ownerRefOf demoStatus] } : Secret).Data =
      some [(goStr "k", goStr "v")] ∧
    ({ demoSecret with OwnerReferences := [ownerRefOf demoStatus] } : Secret).Data ≠
      (some [] : DataMap) := by
  refine ⟨rfl, rfl, by decide, rfl, by decide⟩

/-- C4 (amended): when the read of the current secret and the owner-reference
attachment succeed, `patchSecret` issues the read and then one patch against
the secret just read, and the secret it submits carries the new owner
references and has data equal to `data` when `data` has at least one entry,
and the just-read data when `data` is nil or has no entry. -/
theorem patchSecret_data {RSA EC σ : Type} (lib : Lib RSA EC) (env : Env σ)
    (name ns : GoString) (spcPodStatus : SecretProviderClassPodStatus) (data : DataMap)
    (w : Run σ) (secret : Secret) (refs : List OwnerReference)
    (hread : (env.getSecret w.state ns name).1 = .ok secret)
    (hown : lib.setOwnerReference spcPodStatus secret = .ok refs) :
    ∃ patched : Secret,
      (patchSecret lib env name ns spcPodStatus data w).2.calls =
        w.calls ++ [.getSecret ns name, .patch patched secret] ∧
      (patchSecret lib env name ns spcPodStatus data w).1 =
        (env.patch (env.getSecret w.state ns name).2 patched secret).1 ∧
      patched = { secret with OwnerReferences := refs, Data := patched.Data } ∧
      (0 < data.len → patched.Data = data) ∧
      (data.len = 0 → patched.Data = secret.Data) := by
  by_cases hlen : 0 < data.len
  · refine ⟨{ secret with OwnerReferences := refs, Data := data }, ?_, ?_, rfl,
      fun _ => rfl, fun h => absurd h (by omega)⟩
    · simp [patchSecret, Env.doGetSecret, hread, patchSecretFrom, hown, hlen, Env.doPatch]
    · simp [patchSecret, Env.doGetSecret, hread, patchSecretFrom, hown, hlen, Env.doPatch]
  · refine ⟨{ secret with OwnerReferences := refs }, ?_, ?_, rfl,
      fun h => absurd h hlen, fun _ => rfl⟩
    · simp [patchSecret, Env.doGetSecret, hread, patchSecretFrom, hown, hlen, Env.doPatch]
    · simp [patchSecret, Env.doGetSecret, hread, patchSecretFrom, hown, hlen, Env.doPatch]

/-- After a not-found read the variable holds the zero secret, which has no
namespace: the stand-in `SetOwnerReference` refuses it for an owner in a
namespace, and `patchSecret` returns that error without sending a patch. -/
theorem patchSecret_not_found_no_patch :
    (patchSecret toyLib (memEnv (demoCluster [])) (goStr "s") (goStr "default") demoStatus
        none (startRun [])).1 = some (.other 4) ∧
    (patchSecret toyLib (memEnv (demoCluster [])) (goStr "s") (goStr "default") demoStatus
        none (startRun [])).2.calls = [.getSecret (goStr "default") (goStr "s")] := by
  refine ⟨by decide, by decide⟩

theorem patchSecret_data_witness :
    ∃ patched : Secret,
      (patchSecret toyLib (memEnv (demoCluster [])) (goStr "s") (goStr "default") demoStatus
        (some [(goStr "crt", goStr "new")]) (startRun [demoSecret])).2.calls =
        (startRun [demoSecret]).calls ++
          [.getSecret (goStr "default") (goStr "s"), .patch patched demoSecret] ∧
      (patchSecret toyLib (memEnv (demoCluster [])) (goStr "s") (goStr "default") demoStatus
        (some [(goStr "crt", goStr "new")]) (startRun [demoSecret])).1 =
        ((memEnv (demoCluster [])).patch
          ((memEnv (demoCluster [])).getSecret (startRun [demoSecret]).state
            (goStr "default") (goStr "s")).2 patched demoSecret).1 ∧
      patched = { demoSecret with OwnerReferences := [ownerRefOf demoStatus],
                                  Data := patched.Data } ∧
      (0 < DataMap.len (some [(goStr "crt", goStr "new")]) →
        patched.Data = some [(goStr "crt", goStr "new")]) ∧
      (DataMap.len (some [(goStr "crt", goStr "new")]) = 0 →
        patched.Data = demoSecret.Data) :=
  patchSecret_data toyLib (memEnv (demoCluster [])) (goStr "s") (goStr "default") demoStatus
    (some [(goStr "crt", goStr "new")]) (startRun [demoSecret]) demoSecret
    [ownerRefOf demoStatus] rfl rfl

/-! ## C5 -/

theorem reconcile_of_reaches {RSA EC σ : Type} (lib : Lib RSA EC) (env : Env σ)
    (r : SecretProviderClassPodStatusReconciler) (req : Request) (w : Run σ)
    (spcPodStatus : SecretProviderClassPodStatus) (spc : SecretProviderClass)
    (files : List (GoString × GoString)) (wl : Run σ)
    (h : ReachesObjects lib env r req w spcPodStatus spc files wl) :
    Reconcile lib env r req w =
      match reconcileLoop lib env req.Namespace spcPodStatus files 0 spc.SecretObjects [] wl with
      | .abort res err w' => ((res, some err), w')
      | .done _ errs w' =>
        if errs.length > 0 then (({ Requeue := true }, none), w')
        else (({ RequeueAfter := 5 * Minute }, none), w') := by
  obtain ⟨hst, hdel, ⟨node, hnode, hfold⟩, hspc, hobjs, hfiles⟩ := h
  have hlen : ¬ spc.SecretObjects.length = 0 := by
    simpa [List.length_eq_zero] using hobjs
  unfold Reconcile
  simp only [hst, hdel, hnode, hfold, hspc, hlen, reconcileMounted, hfiles]
  simp

theorem runSteps_errs {RSA EC σ : Type} (lib : Lib RSA EC) (env : Env σ) :
    ∀ (steps : List Step) (errs errs' : List Error) (w w' : Run σ),
      runSteps lib env steps errs w = .done () errs' w' → errs' = errs
  | [], errs, errs', w, w' => by
    intro h
    simp only [runSteps, Loop.done.injEq, true_and] at h
    exact h.1.symm
  | f :: rest, errs, errs', w, w' => by
    intro h
    unfold runSteps at h
    simp only at h
    split at h
    · cases h
    · exact runSteps_errs lib env rest errs errs' _ w' h

theorem runSteps_agree {RSA EC σ : Type} (lib : Lib RSA EC) (env : Env σ) :
    ∀ (steps : List Step) (errs errs' : List Error) (w : Run σ),
      (runSteps lib env steps errs w).agree (runSteps lib env steps errs' w)
  | [], errs, errs', w => by simp [runSteps, Loop.agree]
  | f :: rest, errs, errs', w => by
    unfold runSteps
    simp only
    split
    · simp [Loop.agree]
    · exact runSteps_agree lib env rest errs errs' _

theorem dataLoop_errs {RSA EC σ : Type} (lib : Lib RSA EC) (env : Env σ)
    (files : List (GoString × GoString)) (idx : Nat) (secretName : GoString)
    (secretType : SecretType) :
    ∀ (entries : List SecretObjectData) (datamap : DataMap) (errs : List Error) (w : Run σ)
      (datamap' : DataMap) (errs' : List Error) (w' : Run σ),
      dataLoop lib env files idx secretName secretType entries datamap errs w =
        .done datamap' errs' w' →
      errs.length ≤ errs'.length ∧
      ((entries.any fun d => d.ObjectName.length = 0 || d.Key.length = 0) = true →
        errs.length < errs'.length)
  | [], datamap, errs, w, datamap', errs', w' => by
    intro h
    simp only [dataLoop, Loop.done.injEq] at h
    simp [h.2.1]
  | d :: rest, datamap, errs, w, datamap', errs', w' => by
    intro h
    unfold dataLoop at h
    by_cases h1 : d.ObjectName.length = 0
    · rw [if_pos h1] at h
      have ih := dataLoop_errs lib env files idx secretName secretType rest _ _ _ _ _ _ h
      simp only [List.length_append, List.length_singleton] at ih
      exact ⟨by omega, fun _ => by omega⟩
    · rw [if_neg h1] at h
      by_cases h2 : d.Key.length = 0
      · rw [if_pos h2] at h
        have ih := dataLoop_errs lib env files idx secretName secretType rest _ _ _ _ _ _ h
        simp only [List.length_append, List.length_singleton] at ih
        exact ⟨by omega, fun _ => by omega⟩
      · rw [if_neg h2] at h
        have hany : ((d :: rest).any fun d => d.ObjectName.length = 0 || d.Key.length = 0) =
            (rest.any fun d => d.ObjectName.length = 0 || d.Key.length = 0) := by
          have h1' : d.ObjectName ≠ [] := by simpa using h1
          have h2' : d.Key ≠ [] := by simpa using h2
          simp [List.any_cons, h1', h2']
        rw [hany]
        split at h
        · exact dataLoop_errs lib env files idx secretName secretType rest _ _ _ _ _ _ h
        · simp only at h
          split at h
          · cases h
          · split at h
            · split at h
              · cases h
              · exact dataLoop_errs lib env files idx secretName secretType rest _ _ _ _ _ _ h
            · exact dataLoop_errs lib env files idx secretName secretType rest _ _ _ _ _ _ h

theorem dataLoop_agree {RSA EC σ : Type} (lib : Lib RSA EC) (env : Env σ)
    (files : List (GoString × GoString)) (idx idx' : Nat) (secretName : GoString)
    (secretType : SecretType) :
    ∀ (entries : List SecretObjectData) (datamap : DataMap) (errs errs' : List Error)
      (w : Run σ),
      (dataLoop lib env files idx secretName secretType entries datamap errs w).agree
        (dataLoop lib env files idx' secretName secretType entries datamap errs' w)
  | [], datamap, errs, errs', w => by simp [dataLoop, Loop.agree]
  | d :: rest, datamap, errs, errs', w => by
    unfold dataLoop
    by_cases h1 : d.ObjectName.length = 0
    · rw [if_pos h1, if_pos h1]
      exact dataLoop_agree lib env files idx idx' secretName secretType rest _ _ _ _
    · rw [if_neg h1, if_neg h1]
      by_cases h2 : d.Key.length = 0
      · rw [if_pos h2, if_pos h2]
        exact dataLoop_agree lib env files idx idx' secretName secretType rest _ _ _ _
      · rw [if_neg h2, if_neg h2]
        split
        · exact dataLoop_agree lib env files idx idx' secretName secretType rest _ _ _ _
        · simp only
          split
          · simp [Loop.agree]
          · split
            · split
              · simp [Loop.agree]
              · exact dataLoop_agree lib env files idx idx' secretName secretType rest _ _ _ _
            · exact dataLoop_agree lib env files idx idx' secretName secretType rest _ _ _ _

theorem reconcileObject_skipped {RSA EC σ : Type} (lib : Lib RSA EC) (env : Env σ)
    (ns : GoString) (spcPodStatus : SecretProviderClassPodStatus)
    (files : List (GoString × GoString)) (idx : Nat) (o : SecretObject)
    (errs : List Error) (w : Run σ) (h : o.skipped = true) :
    ∃ e, reconcileObject lib env ns spcPodStatus files idx o errs w =
      .done () (errs ++ [e]) w := by
  unfold reconcileObject
  by_cases h1 : o.SecretName.length = 0
  · exact ⟨_, by rw [if_pos h1]⟩
  · by_cases h2 : o.Type_.length = 0
    · exact ⟨_, by rw [if_neg h1, if_pos h2]⟩
    · by_cases h3 : o.Data.length = 0
      · exact ⟨_, by rw [if_neg h1, if_neg h2, if_pos h3]⟩
      · simp [SecretObject.skipped, h1, h2, h3] at h

theorem reconcileObject_errs {RSA EC σ : Type} (lib : Lib RSA EC) (env : Env σ)
    (ns : GoString) (spcPodStatus : SecretProviderClassPodStatus)
    (files : List (GoString × GoString)) (idx : Nat) (o : SecretObject)
    (errs errs' : List Error) (w w' : Run σ)
    (h : reconcileObject lib env ns spcPodStatus files idx o errs w = .done () errs' w') :
    errs.length ≤ errs'.length ∧
    ((o.skipped || o.badEntry) = true → errs.length < errs'.length) := by
  by_cases hs : o.skipped = true
  · obtain ⟨e, he⟩ := reconcileObject_skipped lib env ns spcPodStatus files idx o errs w hs
    rw [he] at h
    simp only [Loop.done.injEq, true_and] at h
    rw [← h.1]
    simp
  · have hs' : o.skipped = false := by simpa using hs
    simp only [SecretObject.skipped, Bool.or_eq_false_iff, decide_eq_false_iff_not] at hs'
    obtain ⟨⟨h1, h2⟩, h3⟩ := hs'
    unfold reconcileObject at h
    rw [if_neg h1, if_neg h2, if_neg h3] at h
    simp only at h
    split at h
    · simp only [Loop.done.injEq, true_and] at h
      rw [← h.1]
      simp
    · rw [getSHAfromSecret_ok] at h
      simp only at h
      split at h
      · cases h
      · rename_i datamap errs₁ w₁ hdl
        have hd := dataLoop_errs lib env files idx o.SecretName (getSecretType o.Type_)
          o.Data _ _ _ _ _ _ hdl
        rw [getSHAfromSecret_ok] at h
        simp only at h
        have he := runSteps_errs lib env _ _ _ _ _ h
        subst he
        refine ⟨hd.1, ?_⟩
        intro hb
        apply hd.2
        simpa [SecretObject.skipped, SecretObject.badEntry, h1, h2, h3] using hb

theorem Loop.agree_refl_of_abort {σ α : Type} (res : Result) (err : Error) (w : Run σ) :
    (Loop.abort res err w : Loop σ α).agree (.abort res err w) := by
  simp [Loop.agree]

theorem reconcileObject_agree {RSA EC σ : Type} (lib : Lib RSA EC) (env : Env σ)
    (ns : GoString) (spcPodStatus : SecretProviderClassPodStatus)
    (files : List (GoString × GoString)) (idx idx' : Nat) (o : SecretObject)
    (errs errs' : List Error) (w : Run σ) :
    (reconcileObject lib env ns spcPodStatus files idx o errs w).agree
      (reconcileObject lib env ns spcPodStatus files idx' o errs' w) := by
  unfold reconcileObject
  by_cases h1 : o.SecretName.length = 0
  · simp [h1, Loop.agree]
  · by_cases h2 : o.Type_.length = 0
    · simp [h1, h2, Loop.agree]
    · by_cases h3 : o.Data.length = 0
      · simp [h1, h2, h3, Loop.agree]
      · rw [if_neg h1, if_neg h2, if_neg h3, if_neg h1, if_neg h2, if_neg h3]
        simp only
        split
        · simp [Loop.agree]
        · simp only [getSHAfromSecret_ok]
          have hd := dataLoop_agree lib env files idx idx' o.SecretName
            (getSecretType o.Type_) o.Data (some []) errs errs'
            (secretExists env o.SecretName ns w).2
          revert hd
          cases dataLoop lib env files idx o.SecretName (getSecretType o.Type_) o.Data
              (some []) errs (secretExists env o.SecretName ns w).2 with
          | abort res err w₁ =>
            cases dataLoop lib env files idx' o.SecretName (getSecretType o.Type_) o.Data
                (some []) errs' (secretExists env o.SecretName ns w).2 with
            | abort res' err' w₂ => simp [Loop.agree]
            | done dm' e' w₂ => simp [Loop.agree]
          | done dm e w₁ =>
            cases dataLoop lib env files idx' o.SecretName (getSecretType o.Type_) o.Data
                (some []) errs' (secretExists env o.SecretName ns w).2 with
            | abort res' err' w₂ => simp [Loop.agree]
            | done dm' e' w₂ =>
              intro hd
              simp only [Loop.agree] at hd
              obtain ⟨hdm, hw⟩ := hd
              subst hdm hw
              exact runSteps_agree lib env _ _ _ _

theorem reconcileLoop_errs {RSA EC σ : Type} (lib : Lib RSA EC) (env : Env σ)
    (ns : GoString) (spcPodStatus : SecretProviderClassPodStatus)
    (files : List (GoString × GoString)) :
    ∀ (objs : List SecretObject) (idx : Nat) (errs errs' : List Error) (w w' : Run σ),
      reconcileLoop lib env ns spcPodStatus files idx objs errs w = .done () errs' w' →
      errs.length ≤ errs'.length ∧
      ((∃ o ∈ objs, (o.skipped || o.badEntry) = true) → errs.length < errs'.length)
  | [], idx, errs, errs', w, w' => by
    intro h
    simp only [reconcileLoop, Loop.done.injEq, true_and] at h
    simp [h.1]
  | o :: rest, idx, errs, errs', w, w' => by
    intro h
    unfold reconcileLoop at h
    split at h
    · cases h
    · rename_i u errs₁ w₁ ho
      have h1 := reconcileObject_errs lib env ns spcPodStatus files idx o errs errs₁ w w₁ ho
      have h2 := reconcileLoop_errs lib env ns spcPodStatus files rest (idx + 1) errs₁ errs'
        w₁ w' h
      refine ⟨by omega, ?_⟩
      rintro ⟨o', ho', hbad⟩
      rcases List.mem_cons.mp ho' with rfl | hmem
      · have := h1.2 hbad
        omega
      · have := h2.2 ⟨o', hmem, hbad⟩
        omega

theorem reconcileLoop_filter {RSA EC σ : Type} (lib : Lib RSA EC) (env : Env σ)
    (ns : GoString) (spcPodStatus : SecretProviderClassPodStatus)
    (files : List (GoString × GoString)) :
    ∀ (objs : List SecretObject) (idx idx' : Nat) (errs errs' : List Error) (w : Run σ),
      (reconcileLoop lib env ns spcPodStatus files idx objs errs w).agree
        (reconcileLoop lib env ns spcPodStatus files idx'
          (objs.filter fun o => !o.skipped) errs' w)
  | [], idx, idx', errs, errs', w => by simp [reconcileLoop, Loop.agree]
  | o :: rest, idx, idx', errs, errs', w => by
    by_cases hs : o.skipped = true
    · obtain ⟨e, he⟩ := reconcileObject_skipped lib env ns spcPodStatus files idx o errs w hs
      rw [List.filter_cons_of_neg (by simp [hs])]
      rw [reconcileLoop, he]
      exact reconcileLoop_filter lib env ns spcPodStatus files rest (idx + 1) idx' _ errs' w
    · rw [List.filter_cons_of_pos (by simpa using hs)]
      have ha := reconcileObject_agree lib env ns spcPodStatus files idx idx' o errs errs' w
      rw [reconcileLoop, reconcileLoop]
      revert ha
      cases reconcileObject lib env ns spcPodStatus files idx o errs w with
      | abort res err w₁ =>
        cases reconcileObject lib env ns spcPodStatus files idx' o errs' w with
        | abort res' err' w₂ => simp [Loop.agree]
        | done u' e' w₂ => simp [Loop.agree]
      | done u e w₁ =>
        cases reconcileObject lib env ns spcPodStatus files idx' o errs' w with
        | abort res' err' w₂ => simp [Loop.agree]
        | done u' e' w₂ =>
          intro ha
          simp only [Loop.agree] at ha
          obtain ⟨-, hw⟩ := ha
          subst hw
          exact reconcileLoop_filter lib env ns spcPodStatus files rest (idx + 1) (idx' + 1)
            e e' w₁

/-- C5 (as stated, refuted): the declaration has an object with an empty name
and a TLS object whose destination key is `other`; the one file read
succeeds and no create or patch is attempted, yet `Reconcile` does not return
the immediate requeue: the key extraction fails and the pass ends with
`RequeueAfter` of 5 seconds and an internal error. -/
theorem Reconcile_validation_aborted :
    demoNameless.SecretName = [] ∧
    (Reconcile toyLib (memEnv (demoCluster [demoNameless, demoBadTLS])) demoReconciler
        demoRequest (startRun [])).2.calls =
      [.getStatus (goStr "default") (goStr "pod-1"), .getClass (goStr "default") (goStr "spc"),
       .readDir (goStr "/mnt"), .getSecret (goStr "default") (goStr "tls-secret"),
       .readFile (goStr "/mnt/cert.pem")] ∧
    ((memEnv (demoCluster [demoNameless, demoBadTLS])).readFile [] (goStr "/mnt/cert.pem")).1 =
      .ok (0 :: goStr "cert") ∧
    (Reconcile toyLib (memEnv (demoCluster [demoNameless, demoBadTLS])) demoReconciler
        demoRequest (startRun [])).1 =
      ({ Requeue := false, RequeueAfter := 5 * Second },
        some (.internal .tlsKeyNotSupported)) ∧
    (Reconcile toyLib (memEnv (demoCluster [demoNameless, demoBadTLS])) demoReconciler
        demoRequest (startRun [])).1 ≠ ({ Requeue := true, RequeueAfter := 0 }, none) := by
  refine ⟨rfl, by decide, rfl, by decide, by decide⟩

/-- C5 (amended): when `Reconcile` reaches its loop over the secret objects,
some object has an empty name, type or data list or a data entry with an
empty object name or key, and the loop runs to its end (no file read, no
certificate or key extraction and no create or patch step ends the pass),
then `Reconcile` returns `Requeue = true`, `RequeueAfter = 0` and a nil error;
an object with empty name, type or data only adds an error and issues no call;
and the loop over the list without those objects ends in the same run, that
is with the same calls issued and the same state of the store. -/
theorem Reconcile_validation_requeue {RSA EC σ : Type} (lib : Lib RSA EC) (env : Env σ)
    (r : SecretProviderClassPodStatusReconciler) (req : Request) (w : Run σ)
    (spcPodStatus : SecretProviderClassPodStatus) (spc : SecretProviderClass)
    (files : List (GoString × GoString)) (wl : Run σ)
    (hreach : ReachesObjects lib env r req w spcPodStatus spc files wl)
    (errs : List Error) (w' : Run σ)
    (hdone : reconcileLoop lib env req.Namespace spcPodStatus files 0 spc.SecretObjects [] wl =
      .done () errs w')
    (hbad : ∃ o ∈ spc.SecretObjects, (o.skipped || o.badEntry) = true) :
    Reconcile lib env r req w = (({ Requeue := true, RequeueAfter := 0 }, none), w') ∧
    (∀ o ∈ spc.SecretObjects, o.skipped = true → ∀ idx errs₀ w₀, ∃ e,
      reconcileObject lib env req.Namespace spcPodStatus files idx o errs₀ w₀ =
        .done () (errs₀ ++ [e]) w₀) ∧
    (∃ errs'', reconcileLoop lib env req.Namespace spcPodStatus files 0
      (spc.SecretObjects.filter fun o => !o.skipped) [] wl = .done () errs'' w') := by
  refine ⟨?_, ?_, ?_⟩
  · rw [reconcile_of_reaches lib env r req w spcPodStatus spc files wl hreach, hdone]
    have hlen := (reconcileLoop_errs lib env req.Namespace spcPodStatus files
      spc.SecretObjects 0 [] errs wl w' hdone).2 hbad
    simp only [List.length_nil] at hlen
    simp [hlen]
  · intro o _ hs idx errs₀ w₀
    exact reconcileObject_skipped lib env req.Namespace spcPodStatus files idx o errs₀ w₀ hs
  · have ha := reconcileLoop_filter lib env req.Namespace spcPodStatus files
      spc.SecretObjects 0 0 [] [] wl
    rw [hdone] at ha
    revert ha
    cases reconcileLoop lib env req.Namespace spcPodStatus files 0
        (spc.SecretObjects.filter fun o => !o.skipped) [] wl with
    | abort res err w₂ => simp [Loop.agree]
    | done u e w₂ =>
      intro ha
      simp only [Loop.agree] at ha
      exact ⟨e, by rw [ha.2]⟩

theorem Reconcile_validation_requeue_witness :
    (Reconcile toyLib (memEnv (demoCluster [demoNameless, demoOpaque])) demoReconciler
        demoRequest (startRun [])).1 = ({ Requeue := true, RequeueAfter := 0 }, none) :=
  congrArg Prod.fst
    (Reconcile_validation_requeue toyLib (memEnv (demoCluster [demoNameless, demoOpaque]))
      demoReconciler demoRequest (startRun []) demoStatus
      { SecretObjects := [demoNameless, demoOpaque] } demoFiles
      { state := [],
        calls := [.getStatus (goStr "default") (goStr "pod-1"),
                  .getClass (goStr "default") (goStr "spc"), .readDir (goStr "/mnt")] }
      ⟨rfl, rfl, ⟨goStr "Node-1", rfl, rfl⟩, rfl, by decide, rfl⟩
      [.secretNameEmpty 0]
      (Reconcile toyLib (memEnv (demoCluster [demoNameless, demoOpaque])) demoReconciler
        demoRequest (startRun [])).2
      rfl ⟨demoNameless, by simp, by decide⟩).1

/-! ## C6 -/

theorem lookupEntry_setEntry {β : Type} (k k' : GoString) (v : β) :
    ∀ l : List (GoString × β),
      lookupEntry k' (setEntry k v l) = if k = k' then some v else lookupEntry k' l
  | [] => by simp [setEntry, lookupEntry]
  | (k₀, v₀) :: rest => by
    by_cases h0 : k₀ = k
    · subst h0
      by_cases h1 : k₀ = k'
      · simp [setEntry, lookupEntry, h1]
      · simp [setEntry, lookupEntry, h1]
    · by_cases h1 : k₀ = k'
      · subst h1
        simp [setEntry, lookupEntry, h0, Ne.symm h0]
      · simp [setEntry, lookupEntry, h0, h1, lookupEntry_setEntry k k' v rest]

theorem dataLoop_spec {RSA EC σ : Type} (lib : Lib RSA EC) (env : Env σ)
    (fs : GoString → Except Error Bytes) (hfs : ∀ s p, (env.readFile s p).1 = fs p)
    (files : List (GoString × GoString)) (idx : Nat) (secretName : GoString)
    (secretType : SecretType) :
    ∀ (entries : List SecretObjectData) (l : List (GoString × Bytes)) (errs : List Error)
      (w : Run σ),
      (∀ e ∈ entries, e.ObjectName ≠ [] ∧ e.Key ≠ []) →
      (∀ e ∈ entries, ∀ file, lookupEntry e.ObjectName files = some file →
        ∃ content, fs file = .ok content ∧
          (secretType = SecretTypeTLS → ∃ c, getCertPart lib content e.Key = .ok c)) →
      ∃ l' w', dataLoop lib env files idx secretName secretType entries (some l) errs w =
          .done (some l') errs w' ∧
        (∀ k v, lookupEntry k l' = some v → lookupEntry k l = some v ∨
          ∃ e ∈ entries, e.Key = k ∧ ∃ file content,
            lookupEntry e.ObjectName files = some file ∧ fs file = .ok content ∧
            storedValue lib secretType content k v) ∧
        (∀ k, (lookupEntry k l).isSome = true → (lookupEntry k l').isSome = true) ∧
        (∀ e ∈ entries, (lookupEntry e.ObjectName files).isSome = true →
          (lookupEntry e.Key l').isSome = true)
  | [], l, errs, w => by
    intro _ _
    exact ⟨l, w, rfl, fun k v h => Or.inl h, fun k h => h, by simp⟩
  | d :: rest, l, errs, w => by
    intro hvalid hread
    have hd := hvalid d (List.mem_cons_self _ _)
    have h1 : ¬ d.ObjectName.length = 0 := by simpa using hd.1
    have h2 : ¬ d.Key.length = 0 := by simpa using hd.2
    have hvalid' : ∀ e ∈ rest, e.ObjectName ≠ [] ∧ e.Key ≠ [] :=
      fun e he => hvalid e (List.mem_cons_of_mem _ he)
    have hread' : ∀ e ∈ rest, ∀ file, lookupEntry e.ObjectName files = some file →
        ∃ content, fs file = .ok content ∧
          (secretType = SecretTypeTLS → ∃ c, getCertPart lib content e.Key = .ok c) :=
      fun e he => hread e (List.mem_cons_of_mem _ he)
    rw [dataLoop, if_neg h1, if_neg h2]
    cases hfile : lookupEntry d.ObjectName files with
    | none =>
      simp only
      obtain ⟨l', w', hrun, hsound, hkeep, hmount⟩ :=
        dataLoop_spec lib env fs hfs files idx secretName secretType rest l errs w
          hvalid' hread'
      refine ⟨l', w', hrun, ?_, hkeep, ?_⟩
      · intro k v hkv
        rcases hsound k v hkv with h | ⟨e, he, h⟩
        · exact Or.inl h
        · exact Or.inr ⟨e, List.mem_cons_of_mem _ he, h⟩
      · intro e he hm
        rcases List.mem_cons.mp he with rfl | he'
        · rw [hfile] at hm
          cases hm
        · exact hmount e he' hm
    | some file =>
      obtain ⟨content, hcontent, htls⟩ := hread d (List.mem_cons_self _ _) file hfile
      have hf : (env.doReadFile file w).1 = .ok content := by
        simp only [Env.doReadFile]
        rw [hfs, hcontent]
      simp only [hf]
      by_cases ht : secretType = SecretTypeTLS
      · obtain ⟨c, hc⟩ := htls ht
        rw [if_pos ht]
        simp only [hc]
        obtain ⟨l', w', hrun, hsound, hkeep, hmount⟩ :=
          dataLoop_spec lib env fs hfs files idx secretName secretType rest
            (setEntry d.Key c (setEntry d.Key content l)) errs (env.doReadFile file w).2
            hvalid' hread'
        refine ⟨l', w', hrun, ?_, ?_, ?_⟩
        · intro k v hkv
          rcases hsound k v hkv with h | ⟨e, he, h⟩
          · rw [lookupEntry_setEntry, lookupEntry_setEntry] at h
            by_cases hk : d.Key = k
            · rw [if_pos hk] at h
              simp only [Option.some.injEq] at h
              subst h
              refine Or.inr ⟨d, List.mem_cons_self _ _, hk, file, content, hfile, hcontent, ?_⟩
              rw [← hk]
              simp [storedValue, ht, hc]
            · rw [if_neg hk, if_neg hk] at h
              exact Or.inl h
          · exact Or.inr ⟨e, List.mem_cons_of_mem _ he, h⟩
        · intro k hk
          apply hkeep
          rw [lookupEntry_setEntry, lookupEntry_setEntry]
          split
          · rfl
          · exact hk
        · intro e he hm
          rcases List.mem_cons.mp he with rfl | he'
          · apply hkeep
            rw [lookupEntry_setEntry]
            simp
          · exact hmount e he' hm
      · rw [if_neg ht]
        obtain ⟨l', w', hrun, hsound, hkeep, hmount⟩ :=
          dataLoop_spec lib env fs hfs files idx secretName secretType rest
            (setEntry d.Key content l) errs (env.doReadFile file w).2 hvalid' hread'
        refine ⟨l', w', hrun, ?_, ?_, ?_⟩
        · intro k v hkv
          rcases hsound k v hkv with h | ⟨e, he, h⟩
          · rw [lookupEntry_setEntry] at h
            by_cases hk : d.Key = k
            · rw [if_pos hk] at h
              simp only [Option.some.injEq] at h
              subst h
              refine Or.inr ⟨d, List.mem_cons_self _ _, hk, file, content, hfile, hcontent, ?_⟩
              simp [storedValue, ht]
            · rw [if_neg hk] at h
              exact Or.inl h
          · exact Or.inr ⟨e, List.mem_cons_of_mem _ he, h⟩
        · intro k hk
          apply hkeep
          rw [lookupEntry_setEntry]
          split
          · rfl
          · exact hk
        · intro e he hm
          rcases List.mem_cons.mp he with rfl | he'
          · apply hkeep
            rw [lookupEntry_setEntry]
            simp
          · exact hmount e he' hm

theorem secretExists_ok {σ : Type} (env : Env σ)
    (hget : ∀ s ns name e, (env.getSecret s ns name).1 = .error e → e.isNotFound = true)
    (name ns : GoString) (w : Run σ) :
    ∃ exists_ currentData, (secretExists env name ns w).1 = .ok (exists_, currentData) := by
  unfold secretExists
  simp only
  cases h : (env.doGetSecret ns name w).1 with
  | ok o => exact ⟨true, o.Data, rfl⟩
  | error err =>
    have : err.isNotFound = true := hget w.state ns name err (by simpa [Env.doGetSecret] using h)
    simp only [this, if_true]
    exact ⟨false, none, rfl⟩

/-- A round of the loop on a secret object without irregularity, all of whose
mounted files can be read (and, for a TLS secret, extracted from). -/
theorem reconcileObject_regular {RSA EC σ : Type} (lib : Lib RSA EC) (env : Env σ)
    (fs : GoString → Except Error Bytes) (hfs : ∀ s p, (env.readFile s p).1 = fs p)
    (hget : ∀ s ns name e, (env.getSecret s ns name).1 = .error e → e.isNotFound = true)
    (ns : GoString) (spcPodStatus : SecretProviderClassPodStatus)
    (files : List (GoString × GoString)) (idx : Nat) (o : SecretObject)
    (errs : List Error) (w : Run σ)
    (hvalid : o.skipped = false ∧ o.badEntry = false)
    (hread : ∀ e ∈ o.Data, ∀ file, lookupEntry e.ObjectName files = some file →
      ∃ content, fs file = .ok content ∧
        (getSecretType o.Type_ = SecretTypeTLS → ∃ c, getCertPart lib content e.Key = .ok c)) :
    ∃ (exists_ : Bool) (currentData : DataMap) (l : List (GoString × Bytes)) (w₁ : Run σ),
      (secretExists env o.SecretName ns w).1 = .ok (exists_, currentData) ∧
      dataLoop lib env files idx o.SecretName (getSecretType o.Type_) o.Data (some []) errs
        (secretExists env o.SecretName ns w).2 = .done (some l) errs w₁ ∧
      (∀ k, (lookupEntry k l).isSome = true ↔
        ∃ e ∈ o.Data, e.Key = k ∧ (lookupEntry e.ObjectName files).isSome = true) ∧
      (∀ k v, lookupEntry k l = some v →
        ∃ e ∈ o.Data, e.Key = k ∧ ∃ file content,
          lookupEntry e.ObjectName files = some file ∧ fs file = .ok content ∧
          storedValue lib (getSecretType o.Type_) content k v) ∧
      reconcileObject lib env ns spcPodStatus files idx o errs w =
        runSteps lib env
          (queueSteps exists_ (hexEncode (lib.sha1 (shaInput currentData)))
            (hexEncode (lib.sha1 (shaInput (some l)))) o.SecretName ns spcPodStatus
            (some l) (getSecretType o.Type_)) errs w₁ := by
  obtain ⟨hs, hb⟩ := hvalid
  simp only [SecretObject.skipped, Bool.or_eq_false_iff, decide_eq_false_iff_not] at hs
  obtain ⟨⟨h1, h2⟩, h3⟩ := hs
  have hname : o.SecretName ≠ [] := by simpa using h1
  have htype : o.Type_ ≠ [] := by simpa using h2
  have hdata : o.Data ≠ [] := by simpa using h3
  have hentries : ∀ e ∈ o.Data, e.ObjectName ≠ [] ∧ e.Key ≠ [] := by
    intro e he
    simp only [SecretObject.badEntry, List.any_eq_false, Bool.or_eq_true, decide_eq_true_eq,
      not_or] at hb
    have := hb e he
    simpa using this
  obtain ⟨exists_, currentData, hex⟩ := secretExists_ok env hget o.SecretName ns w
  obtain ⟨l, w₁, hrun, hsound, _, hmount⟩ :=
    dataLoop_spec lib env fs hfs files idx o.SecretName (getSecretType o.Type_) o.Data []
      errs (secretExists env o.SecretName ns w).2 hentries hread
  refine ⟨exists_, currentData, l, w₁, hex, hrun, ?_, ?_, ?_⟩
  · intro k
    constructor
    · intro hk
      obtain ⟨v, hv⟩ := Option.isSome_iff_exists.mp hk
      rcases hsound k v hv with h | ⟨e, he, hek, file, content, hfile, -, -⟩
      · simp [lookupEntry] at h
      · exact ⟨e, he, hek, by rw [hfile]; rfl⟩
    · rintro ⟨e, he, rfl, hm⟩
      exact hmount e he hm
  · intro k v hv
    rcases hsound k v hv with h | h
    · simp [lookupEntry] at h
    · exact h
  · have h := reconcileObject_valid lib env ns spcPodStatus files idx o errs w hname htype
      hdata exists_ currentData hex
    rw [hrun] at h
    exact h

theorem reconcileLoop_regular {RSA EC σ : Type} (lib : Lib RSA EC) (env : Env σ)
    (fs : GoString → Except Error Bytes) (hfs : ∀ s p, (env.readFile s p).1 = fs p)
    (hget : ∀ s ns name e, (env.getSecret s ns name).1 = .error e → e.isNotFound = true)
    (ns : GoString) (spcPodStatus : SecretProviderClassPodStatus)
    (files : List (GoString × GoString)) :
    ∀ (objs : List SecretObject) (idx : Nat) (errs errs' : List Error) (w w' : Run σ),
      (∀ o ∈ objs, o.skipped = false ∧ o.badEntry = false) →
      (∀ o ∈ objs, ∀ e ∈ o.Data, ∀ file, lookupEntry e.ObjectName files = some file →
        ∃ content, fs file = .ok content ∧
          (getSecretType o.Type_ = SecretTypeTLS →
            ∃ c, getCertPart lib content e.Key = .ok c)) →
      reconcileLoop lib env ns spcPodStatus files idx objs errs w = .done () errs' w' →
      errs' = errs
  | [], idx, errs, errs', w, w' => by
    intro _ _ h
    simp only [reconcileLoop, Loop.done.injEq, true_and] at h
    exact h.1.symm
  | o :: rest, idx, errs, errs', w, w' => by
    intro hvalid hread h
    obtain ⟨ex, cur, l, w₁, -, -, -, -, hobj⟩ :=
      reconcileObject_regular lib env fs hfs hget ns spcPodStatus files idx o errs w
        (hvalid o (List.mem_cons_self _ _)) (hread o (List.mem_cons_self _ _))
    rw [reconcileLoop] at h
    split at h
    · cases h
    · rename_i u errs₁ w₂ ho
      rw [hobj] at ho
      have he := runSteps_errs lib env _ _ _ _ _ ho
      subst he
      exact reconcileLoop_regular lib env fs hfs hget ns spcPodStatus files rest (idx + 1)
        errs₁ errs' w₂ w' (fun o' ho' => hvalid o' (List.mem_cons_of_mem _ ho'))
        (fun o' ho' => hread o' (List.mem_cons_of_mem _ ho')) h

/-- C6: for secret objects without irregularity whose mounted files can be
read, the desired content built by `Reconcile` has exactly the destination
keys of the data entries whose object name is a key of the mounted file set,
each holding the content of such an entry's file (passed through
`getCertPart` for a TLS secret); an entry whose object name is absent adds no
key and no error; the queued closures run on that content; and when the loop
runs to its end `Reconcile` returns `RequeueAfter` of 5 minutes, `Requeue =
false` and a nil error. -/
theorem Reconcile_unmounted_entry_skipped {RSA EC σ : Type} (lib : Lib RSA EC) (env : Env σ)
    (fs : GoString → Except Error Bytes)
    (r : SecretProviderClassPodStatusReconciler) (req : Request) (w : Run σ)
    (spcPodStatus : SecretProviderClassPodStatus) (spc : SecretProviderClass)
    (files : List (GoString × GoString)) (wl : Run σ)
    (hreach : ReachesObjects lib env r req w spcPodStatus spc files wl)
    (hfs : ∀ s p, (env.readFile s p).1 = fs p)
    (hget : ∀ s ns name e, (env.getSecret s ns name).1 = .error e → e.isNotFound = true)
    (hvalid : ∀ o ∈ spc.SecretObjects, o.skipped = false ∧ o.badEntry = false)
    (hread : ∀ o ∈ spc.SecretObjects, ∀ e ∈ o.Data, ∀ file,
      lookupEntry e.ObjectName files = some file →
      ∃ content, fs file = .ok content ∧
        (getSecretType o.Type_ = SecretTypeTLS → ∃ c, getCertPart lib content e.Key = .ok c))
    (errs : List Error) (w' : Run σ)
    (hdone : reconcileLoop lib env req.Namespace spcPodStatus files 0 spc.SecretObjects [] wl =
      .done () errs w') :
    (∀ o ∈ spc.SecretObjects, ∀ (idx : Nat) (errs₀ : List Error) (w₀ : Run σ),
      ∃ (exists_ : Bool) (currentData : DataMap) (l : List (GoString × Bytes)) (w₁ : Run σ),
        (secretExists env o.SecretName req.Namespace w₀).1 = .ok (exists_, currentData) ∧
        dataLoop lib env files idx o.SecretName (getSecretType o.Type_) o.Data (some [])
          errs₀ (secretExists env o.SecretName req.Namespace w₀).2 =
            .done (some l) errs₀ w₁ ∧
        (∀ k, (lookupEntry k l).isSome = true ↔
          ∃ e ∈ o.Data, e.Key = k ∧ (lookupEntry e.ObjectName files).isSome = true) ∧
        (∀ k v, lookupEntry k l = some v →
          ∃ e ∈ o.Data, e.Key = k ∧ ∃ file content,
            lookupEntry e.ObjectName files = some file ∧ fs file = .ok content ∧
            storedValue lib (getSecretType o.Type_) content k v) ∧
        reconcileObject lib env req.Namespace spcPodStatus files idx o errs₀ w₀ =
          runSteps lib env
            (queueSteps exists_ (hexEncode (lib.sha1 (shaInput currentData)))
              (hexEncode (lib.sha1 (shaInput (some l)))) o.SecretName req.Namespace
              spcPodStatus (some l) (getSecretType o.Type_)) errs₀ w₁) ∧
    Reconcile lib env r req w =
      (({ Requeue := false, RequeueAfter := 5 * Minute }, none), w') := by
  constructor
  · intro o ho idx errs₀ w₀
    exact reconcileObject_regular lib env fs hfs hget req.Namespace spcPodStatus files idx o
      errs₀ w₀ (hvalid o ho) (hread o ho)
  · have he := reconcileLoop_regular lib env fs hfs hget req.Namespace spcPodStatus files
      spc.SecretObjects 0 [] errs wl w' hvalid hread hdone
    subst he
    rw [reconcile_of_reaches lib env r req w spcPodStatus spc files wl hreach, hdone]
    simp

theorem memEnv_getSecret_error (c : Cluster) (s : List Secret) (ns name : GoString)
    (e : Error) (h : ((memEnv c).getSecret s ns name).1 = .error e) :
    e.isNotFound = true := by
  simp only [memEnv] at h
  split at h
  · cases h
  · simp only [Except.error.injEq] at h
    rw [← h]
    rfl

theorem demoPartial_readable :
    ∀ o ∈ [demoPartial], ∀ e ∈ o.Data, ∀ file,
      lookupEntry e.ObjectName demoFiles = some file →
      ∃ content, memFS (demoCluster [demoPartial]) file = .ok content ∧
        (getSecretType o.Type_ = SecretTypeTLS →
          ∃ c, getCertPart toyLib content e.Key = .ok c) := by
  intro o ho e he file hfile
  simp only [List.mem_singleton] at ho
  subst ho
  have hnot : getSecretType demoPartial.Type_ ≠ SecretTypeTLS := by decide
  simp only [demoPartial, List.mem_cons, List.mem_singleton, List.not_mem_nil, or_false] at he
  rcases he with rfl | rfl
  · have hnone : lookupEntry (goStr "missing.pem") demoFiles = none := by decide
    simp only at hfile
    rw [hnone] at hfile
    cases hfile
  · have hsome : lookupEntry (goStr "cert.pem") demoFiles = some (goStr "/mnt/cert.pem") := by
      decide
    simp only at hfile
    rw [hsome] at hfile
    simp only [Option.some.injEq] at hfile
    subst hfile
    exact ⟨0 :: goStr "cert", rfl, fun h => absurd h hnot⟩

theorem Reconcile_unmounted_entry_skipped_witness :
    (Reconcile toyLib (memEnv (demoCluster [demoPartial])) demoReconciler demoRequest
        (startRun [])).1 = ({ Requeue := false, RequeueAfter := 5 * Minute }, none) ∧
    (Reconcile toyLib (memEnv (demoCluster [demoPartial])) demoReconciler demoRequest
        (startRun [])).2.state =
      [{ Namespace := goStr "default", Name := goStr "s", Type_ := SecretTypeOpaque,
         Data := some [(goStr "crt", 0 :: goStr "cert")],
         OwnerReferences := [ownerRefOf demoStatus], ResourceVersion := [] }] :=
  ⟨congrArg Prod.fst
    (Reconcile_unmounted_entry_skipped toyLib (memEnv (demoCluster [demoPartial]))
      (memFS (demoCluster [demoPartial])) demoReconciler demoRequest (startRun []) demoStatus
      { SecretObjects := [demoPartial] } demoFiles
      { state := [],
        calls := [.getStatus (goStr "default") (goStr "pod-1"),
                  .getClass (goStr "default") (goStr "spc"), .readDir (goStr "/mnt")] }
      ⟨rfl, rfl, ⟨goStr "Node-1", rfl, rfl⟩, rfl, by decide, rfl⟩
      (fun _ _ => rfl) (memEnv_getSecret_error (demoCluster [demoPartial]))
      (by decide) demoPartial_readable []
      (Reconcile toyLib (memEnv (demoCluster [demoPartial])) demoReconciler demoRequest
        (startRun [])).2
      rfl).2,
   by decide⟩

/-! ## C7 -/

theorem createK8sSecret_eq {σ : Type} (env : Env σ) (name ns : GoString) (datamap : DataMap)
    (secretType : SecretType) (w : Run σ) :
    createK8sSecret env name ns datamap secretType w =
      (match (env.create w.state (newSecret name ns datamap secretType)).1 with
        | none => none
        | some err => if err.isAlreadyExists then none else some err,
       { state := (env.create w.state (newSecret name ns datamap secretType)).2,
         calls := w.calls ++ [.create (newSecret name ns datamap secretType)] }) := by
  unfold createK8sSecret
  simp only [Env.doCreate, newSecret]
  split
  · rfl
  · split <;> rfl

/-- C7: `createK8sSecret` returns nil exactly when the store's create succeeds
or reports already-exists, and returns any other error of the store unchanged;
hence over a store that answers already-exists for a present secret (and
accepts the create of an absent one), two calls with the same name and
namespace both return nil and the second leaves the store as the first left it. -/
theorem createK8sSecret_idempotent {σ : Type} (env : Env σ) :
    (∀ (name ns : GoString) (datamap : DataMap) (secretType : SecretType) (w : Run σ),
      ((createK8sSecret env name ns datamap secretType w).1 = none ↔
        ((env.create w.state (newSecret name ns datamap secretType)).1 = none ∨
         ∃ e, (env.create w.state (newSecret name ns datamap secretType)).1 = some e ∧
           e.isAlreadyExists = true)) ∧
      (∀ e, (env.create w.state (newSecret name ns datamap secretType)).1 = some e →
        e.isAlreadyExists = false →
        (createK8sSecret env name ns datamap secretType w).1 = some e)) ∧
    (∀ present : σ → GoString → GoString → Bool, CreateLaws env present →
      ∀ (name ns : GoString) (datamap datamap' : DataMap) (secretType secretType' : SecretType)
        (w : Run σ),
        (createK8sSecret env name ns datamap secretType w).1 = none ∧
        (createK8sSecret env name ns datamap' secretType'
          (createK8sSecret env name ns datamap secretType w).2).1 = none ∧
        (createK8sSecret env name ns datamap' secretType'
          (createK8sSecret env name ns datamap secretType w).2).2.state =
          (createK8sSecret env name ns datamap secretType w).2.state) := by
  constructor
  · intro name ns datamap secretType w
    rw [createK8sSecret_eq]
    cases h : (env.create w.state (newSecret name ns datamap secretType)).1 with
    | none => simp
    | some err =>
      cases hx : err.isAlreadyExists <;> simp [hx]
  · intro present ⟨hpresent, hfresh⟩ name ns datamap datamap' secretType secretType' w
    have key : ∀ (dm : DataMap) (ty : SecretType) (w₀ : Run σ),
        (createK8sSecret env name ns dm ty w₀).1 = none ∧
        present (createK8sSecret env name ns dm ty w₀).2.state ns name = true ∧
        (present w₀.state ns name = true →
          (createK8sSecret env name ns dm ty w₀).2.state = w₀.state) := by
      intro dm ty w₀
      rw [createK8sSecret_eq]
      cases hp : present w₀.state ns name with
      | true =>
        have h := hpresent w₀.state (newSecret name ns dm ty) hp
        rw [h]
        refine ⟨?_, hp, fun _ => rfl⟩
        simp [Error.isAlreadyExists]
      | false =>
        have h := hfresh w₀.state (newSecret name ns dm ty) hp
        refine ⟨by simp [h.1], h.2, fun hc => by cases hc⟩
    obtain ⟨h1, hp1, -⟩ := key datamap secretType w
    obtain ⟨h2, -, hs2⟩ := key datamap' secretType'
      (createK8sSecret env name ns datamap secretType w).2
    exact ⟨h1, h2, hs2 hp1⟩

theorem findSecret_append (ns name : GoString) (sec : Secret)
    (hns : sec.Namespace = ns) (hname : sec.Name = name) :
    ∀ st : List Secret, (findSecret ns name (st ++ [sec])).isSome = true
  | [] => by simp [findSecret, hns, hname]
  | s :: rest => by
    simp only [List.cons_append, findSecret]
    split
    · rfl
    · exact findSecret_append ns name sec hns hname rest

theorem memEnv_createLaws (c : Cluster) :
    CreateLaws (memEnv c) (fun st ns name => (findSecret ns name st).isSome) := by
  constructor
  · intro st sec h
    simp only [memEnv]
    have h' : (findSecret sec.Namespace sec.Name st).isSome = true := h
    cases hf : findSecret sec.Namespace sec.Name st with
    | none => rw [hf] at h'; cases h'
    | some _ => rfl
  · intro st sec h
    simp only [memEnv]
    have h' : (findSecret sec.Namespace sec.Name st).isSome = false := h
    cases hf : findSecret sec.Namespace sec.Name st with
    | none => exact ⟨rfl, findSecret_append _ _ sec rfl rfl st⟩
    | some _ => rw [hf] at h'; cases h'

theorem createK8sSecret_idempotent_witness :
    (createK8sSecret (memEnv (demoCluster [])) (goStr "s") (goStr "default")
        (some [(goStr "crt", goStr "a")]) SecretTypeOpaque (startRun [])).1 = none ∧
    (createK8sSecret (memEnv (demoCluster [])) (goStr "s") (goStr "default")
        (some [(goStr "crt", goStr "b")]) SecretTypeOpaque
        (createK8sSecret (memEnv (demoCluster [])) (goStr "s") (goStr "default")
          (some [(goStr "crt", goStr "a")]) SecretTypeOpaque (startRun [])).2).1 = none ∧
    (createK8sSecret (memEnv (demoCluster [])) (goStr "s") (goStr "default")
        (some [(goStr "crt", goStr "b")]) SecretTypeOpaque
        (createK8sSecret (memEnv (demoCluster [])) (goStr "s") (goStr "default")
          (some [(goStr "crt", goStr "a")]) SecretTypeOpaque (startRun [])).2).2.state =
      (createK8sSecret (memEnv (demoCluster [])) (goStr "s") (goStr "default")
        (some [(goStr "crt", goStr "a")]) SecretTypeOpaque (startRun [])).2.state :=
  (createK8sSecret_idempotent (memEnv (demoCluster []))).2
    (fun st ns name => (findSecret ns name st).isSome) (memEnv_createLaws (demoCluster []))
    (goStr "s") (goStr "default") (some [(goStr "crt", goStr "a")])
    (some [(goStr "crt", goStr "b")]) SecretTypeOpaque SecretTypeOpaque (startRun [])

/-! ## C8 -/

theorem Run.before_refl {σ : Type} (w : Run σ) : w.before w := ⟨[], by simp⟩

theorem Run.before_trans {σ : Type} {a b c : Run σ} (h₁ : a.before b) (h₂ : b.before c) :
    a.before c := by
  obtain ⟨m₁, e₁⟩ := h₁
  obtain ⟨m₂, e₂⟩ := h₂
  exact ⟨m₁ ++ m₂, by rw [e₂, e₁, List.append_assoc]⟩

theorem secretExists_before {σ : Type} (env : Env σ) (name ns : GoString) (w : Run σ) :
    w.before (secretExists env name ns w).2 := by
  have h : w.before (env.doGetSecret ns name w).2 := ⟨_, rfl⟩
  unfold secretExists
  simp only
  split
  · exact h
  · split <;> exact h

theorem createK8sSecret_before {σ : Type} (env : Env σ) (name ns : GoString)
    (datamap : DataMap) (secretType : SecretType) (w : Run σ) :
    w.before (createK8sSecret env name ns datamap secretType w).2 := by
  rw [createK8sSecret_eq]
  exact ⟨_, rfl⟩

theorem patchSecretFrom_before {RSA EC σ : Type} (lib : Lib RSA EC) (env : Env σ)
    (spcPodStatus : SecretProviderClassPodStatus) (data : DataMap) (secret : Secret)
    (w : Run σ) : w.before (patchSecretFrom lib env spcPodStatus data secret w).2 := by
  unfold patchSecretFrom
  split
  · exact Run.before_refl w
  · exact ⟨_, rfl⟩

theorem patchSecret_before {RSA EC σ : Type} (lib : Lib RSA EC) (env : Env σ)
    (name ns : GoString) (spcPodStatus : SecretProviderClassPodStatus) (data : DataMap)
    (w : Run σ) : w.before (patchSecret lib env name ns spcPodStatus data w).2 := by
  have h : w.before (env.doGetSecret ns name w).2 := ⟨_, rfl⟩
  unfold patchSecret
  simp only
  split
  · exact Run.before_trans h (patchSecretFrom_before lib env _ _ _ _)
  · split
    · exact h
    · exact Run.before_trans h (patchSecretFrom_before lib env _ _ _ _)

theorem Step.run_before {RSA EC σ : Type} (lib : Lib RSA EC) (env : Env σ) (f : Step)
    (w : Run σ) : w.before (f.run lib env w).2 := by
  cases f with
  | create name ns datamap secretType =>
    have h := createK8sSecret_before env name ns datamap secretType w
    simp only [Step.run]
    split <;> exact h
  | patch name ns spcPodStatus dataPatchBytes =>
    have h := patchSecret_before lib env name ns spcPodStatus dataPatchBytes w
    simp only [Step.run]
    split <;> exact h

theorem exponentialBackoff_before {σ : Type}
    (condition : Run σ → (Bool × Option Error) × Run σ)
    (hc : ∀ w : Run σ, w.before (condition w).2) :
    ∀ (steps : Nat) (w : Run σ), w.before (exponentialBackoff condition steps w).2
  | 0, w => Run.before_refl w
  | steps + 1, w => by
    rw [exponentialBackoff]
    split
    · exact hc w
    · split
      · exact hc w
      · exact Run.before_trans (hc w) (exponentialBackoff_before condition hc steps _)

theorem runSteps_before {RSA EC σ : Type} (lib : Lib RSA EC) (env : Env σ) :
    ∀ (steps : List Step) (errs : List Error) (w : Run σ),
      w.before (runSteps lib env steps errs w).run
  | [], errs, w => Run.before_refl w
  | f :: rest, errs, w => by
    have h := exponentialBackoff_before (f.run lib env) (Step.run_before lib env f) 5 w
    rw [runSteps]
    split
    · exact h
    · exact Run.before_trans h (runSteps_before lib env rest errs _)

theorem dataLoop_before {RSA EC σ : Type} (lib : Lib RSA EC) (env : Env σ)
    (files : List (GoString × GoString)) (idx : Nat) (secretName : GoString)
    (secretType : SecretType) :
    ∀ (entries : List SecretObjectData) (datamap : DataMap) (errs : List Error) (w : Run σ),
      w.before (dataLoop lib env files idx secretName secretType entries datamap errs w).run
  | [], datamap, errs, w => Run.before_refl w
  | d :: rest, datamap, errs, w => by
    rw [dataLoop]
    split
    · exact dataLoop_before lib env files idx secretName secretType rest _ _ _
    · split
      · exact dataLoop_before lib env files idx secretName secretType rest _ _ _
      · split
        · exact dataLoop_before lib env files idx secretName secretType rest _ _ _
        · rename_i file _
          have h : w.before (env.doReadFile file w).2 := ⟨_, rfl⟩
          simp only
          split
          · exact h
          · split
            · split
              · exact h
              · exact Run.before_trans h
                  (dataLoop_before lib env files idx secretName secretType rest _ _ _)
            · exact Run.before_trans h
                (dataLoop_before lib env files idx secretName secretType rest _ _ _)

theorem reconcileObject_before {RSA EC σ : Type} (lib : Lib RSA EC) (env : Env σ)
    (ns : GoString) (spcPodStatus : SecretProviderClassPodStatus)
    (files : List (GoString × GoString)) (idx : Nat) (o : SecretObject)
    (errs : List Error) (w : Run σ) :
    w.before (reconcileObject lib env ns spcPodStatus files idx o errs w).run := by
  have he := secretExists_before env o.SecretName ns w
  unfold reconcileObject
  split
  · exact Run.before_refl w
  · split
    · exact Run.before_refl w
    · split
      · exact Run.before_refl w
      · simp only
        split
        · exact he
        · simp only [getSHAfromSecret_ok]
          have hd := dataLoop_before lib env files idx o.SecretName (getSecretType o.Type_)
            o.Data (some []) errs (secretExists env o.SecretName ns w).2
          split
          · rename_i hdl
            rw [hdl] at hd
            exact Run.before_trans he hd
          · rename_i hdl
            rw [hdl] at hd
            exact Run.before_trans he (Run.before_trans hd (runSteps_before lib env _ _ _))

theorem reconcileLoop_before {RSA EC σ : Type} (lib : Lib RSA EC) (env : Env σ)
    (ns : GoString) (spcPodStatus : SecretProviderClassPodStatus)
    (files : List (GoString × GoString)) :
    ∀ (objs : List SecretObject) (idx : Nat) (errs : List Error) (w : Run σ),
      w.before (reconcileLoop lib env ns spcPodStatus files idx objs errs w).run
  | [], idx, errs, w => Run.before_refl w
  | o :: rest, idx, errs, w => by
    have ho := reconcileObject_before lib env ns spcPodStatus files idx o errs w
    rw [reconcileLoop]
    split
    · rename_i h
      rw [h] at ho
      exact ho
    · rename_i h
      rw [h] at ho
      exact Run.before_trans ho (reconcileLoop_before lib env ns spcPodStatus files rest _ _ _)

theorem reconcileMounted_before {RSA EC σ : Type} (lib : Lib RSA EC) (env : Env σ)
    (req : Request) (spcPodStatus : SecretProviderClassPodStatus) (spc : SecretProviderClass)
    (w : Run σ) : w.before (reconcileMounted lib env req spcPodStatus spc w).2 := by
  have hm : w.before (getMountedFiles env spcPodStatus.TargetPath w).2 := by
    have h : w.before (env.doReadDir spcPodStatus.TargetPath w).2 := ⟨_, rfl⟩
    unfold getMountedFiles
    simp only
    split <;> exact h
  unfold reconcileMounted
  simp only
  split
  · exact hm
  · rename_i files _
    have hl := reconcileLoop_before lib env req.Namespace spcPodStatus files
      spc.SecretObjects 0 [] (getMountedFiles env spcPodStatus.TargetPath w).2
    split
    · rename_i h
      rw [h] at hl
      exact Run.before_trans hm hl
    · rename_i h
      rw [h] at hl
      split <;> exact Run.before_trans hm hl

/-- C8: for a pod status that is found and not being deleted, if it carries
no node label, or `strings.EqualFold` of its node label and the reconciler's
`NodeID` is false, `Reconcile` returns the empty result and a nil error having
issued nothing but the read of the status; if `EqualFold` is true, as for a
label that differs from `NodeID` in letter case only, it goes on to read the
class declaration. -/
theorem Reconcile_other_node {RSA EC σ : Type} (lib : Lib RSA EC) (env : Env σ)
    (r : SecretProviderClassPodStatusReconciler) (req : Request) (w : Run σ)
    (spcPodStatus : SecretProviderClassPodStatus)
    (hfound : (env.getStatus w.state req.Namespace req.Name).1 = .ok spcPodStatus)
    (hlive : spcPodStatus.deletionTimestampIsZero = true) :
    ((lookupEntry lib.internalNodeLabel spcPodStatus.Labels = none ∨
      ∃ node, lookupEntry lib.internalNodeLabel spcPodStatus.Labels = some node ∧
        lib.equalFold node r.NodeID = false) →
      Reconcile lib env r req w =
        (({ Requeue := false, RequeueAfter := 0 }, none),
         { state := (env.getStatus w.state req.Namespace req.Name).2,
           calls := w.calls ++ [.getStatus req.Namespace req.Name] })) ∧
    (∀ node, lookupEntry lib.internalNodeLabel spcPodStatus.Labels = some node →
      lib.equalFold node r.NodeID = true →
      ∃ more, (Reconcile lib env r req w).2.calls =
        w.calls ++ [.getStatus req.Namespace req.Name,
          .getClass req.Namespace spcPodStatus.SecretProviderClassName] ++ more) := by
  have hst : (env.doGetStatus req.Namespace req.Name w).1 = .ok spcPodStatus := hfound
  constructor
  · rintro (hnone | ⟨node, hnode, hfold⟩)
    · unfold Reconcile
      simp only [hst, hlive, hnone]
      rfl
    · unfold Reconcile
      simp only [hst, hlive, hnode, hfold]
      rfl
  · intro node hnode hfold
    unfold Reconcile
    simp only [hst, hlive, hnode, hfold]
    have hc : (env.doGetClass req.Namespace spcPodStatus.SecretProviderClassName
        (env.doGetStatus req.Namespace req.Name w).2).2.calls =
        w.calls ++ [.getStatus req.Namespace req.Name,
          .getClass req.Namespace spcPodStatus.SecretProviderClassName] := by
      simp [Env.doGetClass, Env.doGetStatus]
    simp only [Bool.not_true, Bool.false_eq_true, if_false]
    split
    · split
      · exact ⟨[], by simp [hc]⟩
      · exact ⟨[], by simp [hc]⟩
    · split
      · exact ⟨[], by simp [hc]⟩
      · rename_i spc _ _
        obtain ⟨more, hmore⟩ := reconcileMounted_before lib env req spcPodStatus spc
          (env.doGetClass req.Namespace spcPodStatus.SecretProviderClassName
            (env.doGetStatus req.Namespace req.Name w).2).2
        exact ⟨more, by rw [hmore, hc]⟩

theorem Reconcile_other_node_witness :
    Reconcile toyLib (memEnv otherCluster) demoReconciler demoRequest (startRun []) =
      (({ Requeue := false, RequeueAfter := 0 }, none),
       { state := ((memEnv otherCluster).getStatus (startRun []).state
           demoRequest.Namespace demoRequest.Name).2,
         calls := (startRun []).calls ++
           [.getStatus demoRequest.Namespace demoRequest.Name] }) ∧
    ∃ more, (Reconcile toyLib (memEnv (demoCluster [demoOpaque])) demoReconciler demoRequest
        (startRun [])).2.calls =
      (startRun []).calls ++ [.getStatus demoRequest.Namespace demoRequest.Name,
        .getClass demoRequest.Namespace demoStatus.SecretProviderClassName] ++ more :=
  ⟨(Reconcile_other_node toyLib (memEnv otherCluster) demoReconciler demoRequest
      (startRun []) otherNodeStatus rfl rfl).1 (Or.inr ⟨goStr "node-2", rfl, rfl⟩),
   (Reconcile_other_node toyLib (memEnv (demoCluster [demoOpaque])) demoReconciler
      demoRequest (startRun []) demoStatus rfl rfl).2 (goStr "Node-1") rfl rfl⟩

/-! ## C9 -/

theorem getPrivateKey_eq {RSA EC : Type} (lib : Lib RSA EC) (data : Bytes) :
    getPrivateKey lib data =
      match pkcs8Attempt lib (retainedPayload lib data)
          (pkcs1Attempt lib (retainedPayload lib data) []) with
      | .error err => .error err
      | .ok derKey =>
        match ecAttempt lib (retainedPayload lib data) derKey with
        | .error err => .error err
        | .ok derKey =>
          .ok (lib.pemEncodeToMemory
            { Type_ := privateKeyType, Headers := [], Bytes := derKey }) := rfl

/-- C9: the decoders are tried in the order PKCS#1, PKCS#8, SEC1 on the
retained payload, and Go's three parsers accept disjoint encodings, so at most
one of them accepts the payload. Then `getPrivateKey` is first-success-wins:
the output `RSA PRIVATE KEY` block holds the re-encoding of the key returned by
the earliest decoder in that order that succeeds (PKCS#1; else PKCS#8 with an
RSA or ECDSA key; else SEC1), and no later decoder changes it. -/
theorem getPrivateKey_first_decoder_wins {RSA EC : Type} (lib : Lib RSA EC) (data : Bytes)
    (hexcl : DecodersExclusive lib (retainedPayload lib data)) :
    getPrivateKey lib data =
      (match firstSuccessfulDecode lib (retainedPayload lib data) with
        | .error err => .error err
        | .ok derKey =>
          .ok (lib.pemEncodeToMemory
            { Type_ := privateKeyType, Headers := [], Bytes := derKey })) ∧
    (∀ key, lib.parsePKCS1PrivateKey (retainedPayload lib data) = .ok key →
      getPrivateKey lib data =
        .ok (lib.pemEncodeToMemory
          { Type_ := privateKeyType, Headers := [],
            Bytes := lib.marshalPKCS1PrivateKey key })) ∧
    (∀ e₁ key, lib.parsePKCS1PrivateKey (retainedPayload lib data) = .error e₁ →
      lib.parsePKCS8PrivateKey (retainedPayload lib data) = .ok (.rsa key) →
      getPrivateKey lib data =
        .ok (lib.pemEncodeToMemory
          { Type_ := privateKeyType, Headers := [],
            Bytes := lib.marshalPKCS1PrivateKey key })) ∧
    (∀ e₁ key b, lib.parsePKCS1PrivateKey (retainedPayload lib data) = .error e₁ →
      lib.parsePKCS8PrivateKey (retainedPayload lib data) = .ok (.ecdsa key) →
      lib.marshalECPrivateKey key = .ok b →
      getPrivateKey lib data =
        .ok (lib.pemEncodeToMemory { Type_ := privateKeyType, Headers := [], Bytes := b })) ∧
    (∀ e₁ e₈ key b, lib.parsePKCS1PrivateKey (retainedPayload lib data) = .error e₁ →
      lib.parsePKCS8PrivateKey (retainedPayload lib data) = .error e₈ →
      lib.parseECPrivateKey (retainedPayload lib data) = .ok key →
      lib.marshalECPrivateKey key = .ok b →
      getPrivateKey lib data =
        .ok (lib.pemEncodeToMemory { Type_ := privateKeyType, Headers := [], Bytes := b })) := by
  obtain ⟨hx₁, hx₈⟩ := hexcl
  have hfirst : getPrivateKey lib data =
      (match firstSuccessfulDecode lib (retainedPayload lib data) with
        | .error err => .error err
        | .ok derKey =>
          .ok (lib.pemEncodeToMemory
            { Type_ := privateKeyType, Headers := [], Bytes := derKey })) := by
    rw [getPrivateKey_eq]
    unfold firstSuccessfulDecode pkcs1Attempt pkcs8Attempt ecAttempt
    cases h₁ : lib.parsePKCS1PrivateKey (retainedPayload lib data) with
    | ok key =>
      obtain ⟨⟨e₈, h₈⟩, ⟨e₃, h₃⟩⟩ := hx₁ ⟨key, h₁⟩
      simp [h₈, h₃]
    | error e₁ =>
      cases h₈ : lib.parsePKCS8PrivateKey (retainedPayload lib data) with
      | ok k₈ =>
        obtain ⟨e₃, h₃⟩ := hx₈ ⟨k₈, h₈⟩
        cases k₈ with
        | rsa key => simp [h₃]
        | ecdsa key =>
          cases hm : lib.marshalECPrivateKey key <;> simp [h₃, hm]
        | otherKey => simp
      | error e₈ =>
        cases h₃ : lib.parseECPrivateKey (retainedPayload lib data) with
        | ok key =>
          cases hm : lib.marshalECPrivateKey key <;> simp [hm]
        | error e₃ => simp
  refine ⟨hfirst, ?_, ?_, ?_, ?_⟩
  · intro key h₁
    rw [hfirst]
    simp [firstSuccessfulDecode, h₁]
  · intro e₁ key h₁ h₈
    rw [hfirst]
    simp [firstSuccessfulDecode, h₁, h₈]
  · intro e₁ key b h₁ h₈ hm
    rw [hfirst]
    simp [firstSuccessfulDecode, h₁, h₈, hm]
  · intro e₁ e₈ key b h₁ h₈ h₃ hm
    rw [hfirst]
    simp [firstSuccessfulDecode, h₁, h₈, h₃, hm]

theorem toyLib_exclusive (der : Bytes) : DecodersExclusive toyLib der := by
  unfold DecodersExclusive
  simp only [toyLib]
  constructor
  · rintro ⟨k, hk⟩
    split at hk
    · rename_i h1
      simp [h1]
    · cases hk
  · rintro ⟨k, hk⟩
    by_cases h2 : der.head? = some 2
    · simp [h2] at hk
    · simp [h2]

theorem getPrivateKey_first_decoder_wins_witness :
    getPrivateKey toyLib [1, 1, 5] =
      .ok (toyLib.pemEncodeToMemory
        { Type_ := privateKeyType, Headers := [],
          Bytes := toyLib.marshalPKCS1PrivateKey [1, 5] }) ∧
    getPrivateKey toyLib [1, 2, 5] =
      .ok (toyLib.pemEncodeToMemory
        { Type_ := privateKeyType, Headers := [], Bytes := [2, 2, 5] }) :=
  ⟨(getPrivateKey_first_decoder_wins toyLib [1, 1, 5] (toyLib_exclusive _)).2.1 [1, 5] rfl,
   (getPrivateKey_first_decoder_wins toyLib [1, 2, 5] (toyLib_exclusive _)).2.2.2.2
     (.other 1) (.other 8) [2, 5] [2, 2, 5] rfl rfl rfl rfl⟩

/-! ## C10 -/

theorem getPrivateKeyLoop_only_certs {RSA EC : Type} (lib : Lib RSA EC) :
    ∀ (fuel : Nat) (data der : Bytes),
      (∀ b ∈ pemBlocksLoop lib fuel data, b.Type_ = certType) →
      getPrivateKeyLoop lib fuel data der = der
  | 0, _, _ => fun _ => rfl
  | fuel + 1, data, der => by
    intro h
    rw [getPrivateKeyLoop]
    rw [pemBlocksLoop] at h
    cases hd : lib.pemDecode data with
    | none => rfl
    | some p =>
      obtain ⟨pemBlock, rest⟩ := p
      rw [hd] at h
      simp only [List.mem_cons, forall_eq_or_imp] at h
      simp only [h.1, ne_eq, not_true_eq_false, if_false]
      exact getPrivateKeyLoop_only_certs lib fuel rest der h.2

/-- The loop of `getPrivateKey` reaches its `break` within `data.length + 1`
rounds: more fuel gives the same payload. -/
theorem getPrivateKeyLoop_fuel {RSA EC : Type} (lib : Lib RSA EC) :
    ∀ (fuel fuel' : Nat) (data der : Bytes), data.length < fuel → data.length < fuel' →
      getPrivateKeyLoop lib fuel data der = getPrivateKeyLoop lib fuel' data der
  | 0, _, _, _ => fun h _ => absurd h (Nat.not_lt_zero _)
  | _ + 1, 0, _, _ => fun _ h => absurd h (Nat.not_lt_zero _)
  | fuel + 1, fuel' + 1, data, der => by
    intro h h'
    rw [getPrivateKeyLoop, getPrivateKeyLoop]
    cases hd : lib.pemDecode data with
    | none => rfl
    | some p =>
      obtain ⟨pemBlock, rest⟩ := p
      have hlt := lib.pemDecode_shrinks data pemBlock rest hd
      simp only
      split
      · exact getPrivateKeyLoop_fuel lib fuel fuel' rest _ (by omega) (by omega)
      · exact getPrivateKeyLoop_fuel lib fuel fuel' rest _ (by omega) (by omega)

/-- The loop of `getCert` reaches its `break` within `data.length + 1` rounds. -/
theorem getCertLoop_fuel {RSA EC : Type} (lib : Lib RSA EC) :
    ∀ (fuel fuel' : Nat) (data certs : Bytes), data.length < fuel → data.length < fuel' →
      getCertLoop lib fuel data certs = getCertLoop lib fuel' data certs
  | 0, _, _, _ => fun h _ => absurd h (Nat.not_lt_zero _)
  | _ + 1, 0, _, _ => fun _ h => absurd h (Nat.not_lt_zero _)
  | fuel + 1, fuel' + 1, data, certs => by
    intro h h'
    rw [getCertLoop, getCertLoop]
    cases hd : lib.pemDecode data with
    | none => rfl
    | some p =>
      obtain ⟨pemBlock, rest⟩ := p
      have hlt := lib.pemDecode_shrinks data pemBlock rest hd
      simp only
      split
      · exact getCertLoop_fuel lib fuel fuel' rest _ (by omega) (by omega)
      · exact getCertLoop_fuel lib fuel fuel' rest _ (by omega) (by omega)

/-- C10: when the PKCS#1, PKCS#8 and SEC1 decoders all reject the retained
payload, `getPrivateKey` returns a nil error and one `RSA PRIVATE KEY` block
with an empty payload, and so does `getCertPart` for `tls.key`; the retained
payload is empty when the input has no PEM block or only `CERTIFICATE`
blocks, and is the same for any larger bound on the rounds of the scan; and
for a TLS secret the data loop stores that empty key block under `tls.key`. -/
theorem getPrivateKey_empty_key {RSA EC : Type} (lib : Lib RSA EC) (data : Bytes)
    (e₁ e₈ e₃ : Error)
    (h₁ : lib.parsePKCS1PrivateKey (retainedPayload lib data) = .error e₁)
    (h₈ : lib.parsePKCS8PrivateKey (retainedPayload lib data) = .error e₈)
    (h₃ : lib.parseECPrivateKey (retainedPayload lib data) = .error e₃) :
    getPrivateKey lib data = .ok (emptyKeyBlock lib) ∧
    getCertPart lib data TLSPrivateKeyKey = .ok (emptyKeyBlock lib) ∧
    (∀ fuel, data.length < fuel → getPrivateKeyLoop lib fuel data [] = retainedPayload lib data) ∧
    ((∀ b ∈ pemBlocks lib data, b.Type_ = certType) → retainedPayload lib data = []) ∧
    (∀ {σ : Type} (env : Env σ) (files : List (GoString × GoString)) (idx : Nat)
      (secretName : GoString) (d : SecretObjectData) (rest : List SecretObjectData)
      (l : List (GoString × Bytes)) (errs : List Error) (w : Run σ) (file : GoString),
      d.ObjectName ≠ [] → d.Key = TLSPrivateKeyKey →
      lookupEntry d.ObjectName files = some file →
      (env.readFile w.state file).1 = .ok data →
      dataLoop lib env files idx secretName SecretTypeTLS (d :: rest) (some l) errs w =
        dataLoop lib env files idx secretName SecretTypeTLS rest
          (some (setEntry TLSPrivateKeyKey (emptyKeyBlock lib)
            (setEntry TLSPrivateKeyKey data l))) errs (env.doReadFile file w).2 ∧
      lookupEntry TLSPrivateKeyKey (setEntry TLSPrivateKeyKey (emptyKeyBlock lib)
        (setEntry TLSPrivateKeyKey data l)) = some (emptyKeyBlock lib)) := by
  have hkey : getPrivateKey lib data = .ok (emptyKeyBlock lib) := by
    rw [getPrivateKey_eq]
    simp [pkcs1Attempt, pkcs8Attempt, ecAttempt, h₁, h₈, h₃, emptyKeyBlock]
  have hpart : getCertPart lib data TLSPrivateKeyKey = .ok (emptyKeyBlock lib) := by
    rw [getCertPart, if_pos rfl, hkey]
  refine ⟨hkey, hpart, ?_, ?_, ?_⟩
  · intro fuel hfuel
    exact getPrivateKeyLoop_fuel lib fuel (data.length + 1) data [] hfuel (Nat.lt_succ_self _)
  · intro h
    exact getPrivateKeyLoop_only_certs lib _ data [] h
  · intro σ env files idx secretName d rest l errs w file hname hk hfile hread
    have h1 : ¬ d.ObjectName.length = 0 := by simpa using hname
    have h2 : ¬ d.Key.length = 0 := by rw [hk]; decide
    have hf : (env.doReadFile file w).1 = .ok data := hread
    constructor
    · rw [dataLoop, if_neg h1, if_neg h2]
      simp only [hfile, hf, if_true, hk, hpart]
      rfl
    · rw [lookupEntry_setEntry]
      simp

theorem getPrivateKey_empty_key_witness :
    getPrivateKey toyLib [] = .ok (emptyKeyBlock toyLib) ∧
    (Reconcile toyLib (memEnv (demoCluster [demoTLSKey])) demoReconciler demoRequest
        (startRun [])).1 = ({ Requeue := false, RequeueAfter := 5 * Minute }, none) ∧
    (Reconcile toyLib (memEnv (demoCluster [demoTLSKey])) demoReconciler demoRequest
        (startRun [])).2.state =
      [{ Namespace := goStr "default", Name := goStr "tls-secret", Type_ := SecretTypeTLS,
         Data := some [(goStr "tls.key", emptyKeyBlock toyLib)],
         OwnerReferences := [ownerRefOf demoStatus], ResourceVersion := [] }] :=
  ⟨(getPrivateKey_empty_key toyLib [] (.other 1) (.other 8) (.other 3) rfl rfl rfl).1,
   by decide, by decide⟩

/-! ## C12 -/

/-- C12: `getSecretType` is total: it returns the basic-auth, bootstrap-token,
docker-config-json, dockercfg, ssh-auth, service-account-token or TLS kind
when its argument is exactly the matching identifier, and the Opaque kind for
every other string; so it returns the TLS kind if and only if the argument is
`kubernetes.io/tls`. -/
theorem getSecretType_total (s : GoString) :
    (s = goStr "kubernetes.io/basic-auth" → getSecretType s = SecretTypeBasicAuth) ∧
    (s = goStr "bootstrap.kubernetes.io/token" → getSecretType s = SecretTypeBootstrapToken) ∧
    (s = goStr "kubernetes.io/dockerconfigjson" →
      getSecretType s = SecretTypeDockerConfigJson) ∧
    (s = goStr "kubernetes.io/dockercfg" → getSecretType s = SecretTypeDockercfg) ∧
    (s = goStr "kubernetes.io/ssh-auth" → getSecretType s = SecretTypeSSHAuth) ∧
    (s = goStr "kubernetes.io/service-account-token" →
      getSecretType s = SecretTypeServiceAccountToken) ∧
    (s = goStr "kubernetes.io/tls" → getSecretType s = SecretTypeTLS) ∧
    (s ≠ goStr "kubernetes.io/basic-auth" → s ≠ goStr "bootstrap.kubernetes.io/token" →
      s ≠ goStr "kubernetes.io/dockerconfigjson" → s ≠ goStr "kubernetes.io/dockercfg" →
      s ≠ goStr "kubernetes.io/ssh-auth" → s ≠ goStr "kubernetes.io/service-account-token" →
      s ≠ goStr "kubernetes.io/tls" → getSecretType s = SecretTypeOpaque) ∧
    (getSecretType s = SecretTypeTLS ↔ s = goStr "kubernetes.io/tls") := by
  refine ⟨?_, ?_, ?_, ?_, ?_, ?_, ?_, ?_, ?_, ?_⟩
  · intro h; subst h; decide
  · intro h; subst h; decide
  · intro h; subst h; decide
  · intro h; subst h; decide
  · intro h; subst h; decide
  · intro h; subst h; decide
  · intro h; subst h; decide
  · intro h1 h2 h3 h4 h5 h6 h7
    simp [getSecretType, h1, h2, h3, h4, h5, h6, h7]
  · intro h
    unfold getSecretType at h
    split_ifs at h
    all_goals first | assumption | exact absurd h (by decide)
  · intro h; subst h; decide

theorem getSecretType_total_witness :
    getSecretType [] = SecretTypeOpaque ∧
    getSecretType (goStr "Kubernetes.io/TLS") = SecretTypeOpaque ∧
    getSecretType (goStr "kubernetes.io/tls") = SecretTypeTLS :=
  ⟨(getSecretType_total []).2.2.2.2.2.2.2.1 (by decide) (by decide) (by decide) (by decide)
      (by decide) (by decide) (by decide),
   (getSecretType_total (goStr "Kubernetes.io/TLS")).2.2.2.2.2.2.2.1 (by decide) (by decide)
      (by decide) (by decide) (by decide) (by decide) (by decide),
   (getSecretType_total (goStr "kubernetes.io/tls")).2.2.2.2.2.2.1 rfl⟩

/-! ## C11 -/

theorem pemDecode_nil {RSA EC : Type} (lib : Lib RSA EC) : lib.pemDecode [] = none := by
  cases h : lib.pemDecode [] with
  | none => rfl
  | some p =>
    obtain ⟨block, rest⟩ := p
    have := lib.pemDecode_shrinks [] block rest h
    simp at this

theorem pemBundle_cons {RSA EC : Type} (lib : Lib RSA EC) (b : PemBlock)
    (bs : List PemBlock) :
    pemBundle lib (b :: bs) = lib.pemEncodeToMemory b ++ pemBundle lib bs := by
  simp [pemBundle]

/-- On a bundle of canonically encoded blocks the loop of `getCert` appends the
encodings of the certificate blocks, in order, to its accumulator. -/
theorem getCertLoop_bundle {RSA EC : Type} (lib : Lib RSA EC) :
    ∀ (blocks : List PemBlock) (certs : Bytes),
      (∀ b ∈ blocks, CanonicalBlock lib b) →
      getCertLoop lib ((pemBundle lib blocks).length + 1) (pemBundle lib blocks) certs =
        certs ++ pemBundle lib (certBlocks blocks)
  | [], certs => by
    intro _
    simp [pemBundle, certBlocks, getCertLoop, pemDecode_nil]
  | b :: bs, certs => by
    intro hcanon
    have hb := hcanon b (List.mem_cons_self _ _) (pemBundle lib bs)
    have hbs : ∀ b' ∈ bs, CanonicalBlock lib b' :=
      fun b' hb' => hcanon b' (List.mem_cons_of_mem _ hb')
    have hlt := lib.pemDecode_shrinks _ b (pemBundle lib bs) hb
    rw [pemBundle_cons, getCertLoop, hb]
    simp only
    by_cases ht : b.Type_ = certType
    · rw [if_pos ht,
        getCertLoop_fuel lib _ ((pemBundle lib bs).length + 1) (pemBundle lib bs) _ hlt
          (Nat.lt_succ_self _),
        getCertLoop_bundle lib bs _ hbs]
      simp [certBlocks, ht, pemBundle]
    · rw [if_neg ht,
        getCertLoop_fuel lib _ ((pemBundle lib bs).length + 1) (pemBundle lib bs) _ hlt
          (Nat.lt_succ_self _),
        getCertLoop_bundle lib bs _ hbs]
      simp [certBlocks, ht]

/-- C11: on a bundle that is a concatenation of canonically PEM-encoded blocks
`getCert` returns a nil error and the concatenation, in order, of the
encodings of exactly the blocks of type `CERTIFICATE`; for one certificate
block and one block of another type, in either order, the result is the
encoding of the certificate block, and for a bundle without a certificate
block it is empty. -/
theorem getCert_keeps_certificates {RSA EC : Type} (lib : Lib RSA EC) :
    (∀ blocks : List PemBlock, (∀ b ∈ blocks, CanonicalBlock lib b) →
      getCert lib (pemBundle lib blocks) = .ok (pemBundle lib (certBlocks blocks))) ∧
    (∀ cert key : PemBlock, CanonicalBlock lib cert → CanonicalBlock lib key →
      cert.Type_ = certType → key.Type_ ≠ certType →
      getCert lib (lib.pemEncodeToMemory cert ++ lib.pemEncodeToMemory key) =
        .ok (lib.pemEncodeToMemory cert) ∧
      getCert lib (lib.pemEncodeToMemory key ++ lib.pemEncodeToMemory cert) =
        .ok (lib.pemEncodeToMemory cert)) ∧
    (∀ blocks : List PemBlock, (∀ b ∈ blocks, CanonicalBlock lib b) →
      (∀ b ∈ blocks, b.Type_ ≠ certType) → getCert lib (pemBundle lib blocks) = .ok []) := by
  have main : ∀ blocks : List PemBlock, (∀ b ∈ blocks, CanonicalBlock lib b) →
      getCert lib (pemBundle lib blocks) = .ok (pemBundle lib (certBlocks blocks)) := by
    intro blocks hcanon
    unfold getCert
    rw [getCertLoop_bundle lib blocks [] hcanon]
    simp
  refine ⟨main, ?_, ?_⟩
  · intro cert key hc hk htc htk
    constructor
    · have h := main [cert, key] (by
        intro b hb
        simp only [List.mem_cons, List.mem_singleton, List.not_mem_nil, or_false] at hb
        rcases hb with rfl | rfl
        · exact hc
        · exact hk)
      simpa [pemBundle, certBlocks, htc, htk] using h
    · have h := main [key, cert] (by
        intro b hb
        simp only [List.mem_cons, List.mem_singleton, List.not_mem_nil, or_false] at hb
        rcases hb with rfl | rfl
        · exact hk
        · exact hc)
      simpa [pemBundle, certBlocks, htc, htk] using h
  · intro blocks hcanon hnone
    rw [main blocks hcanon]
    have : certBlocks blocks = [] := by
      simp only [certBlocks, List.filter_eq_nil_iff, decide_eq_true_eq]
      exact hnone
    rw [this]
    rfl

theorem framedLib_canonical (b : PemBlock)
    (htype : b.Type_ = certType ∨ b.Type_ = goStr "PRIVATE KEY") (hheaders : b.Headers = [])
    (hlen : b.Bytes.length < 256) : CanonicalBlock framedLib b := by
  intro rest
  obtain ⟨ty, hd, bytes⟩ := b
  simp only at htype hheaders hlen
  subst hheaders
  have hn : ((Fin.ofNat bytes.length : Fin 256)).val = bytes.length := by
    simp [Fin.ofNat, Nat.mod_eq_of_lt hlen]
  show framedPemDecode (framedPemEncode _ ++ rest) = _
  simp only [framedPemEncode, List.cons_append, framedPemDecode, hn, List.length_append,
    Nat.le_add_right, if_true, List.take_left', List.drop_left']
  rcases htype with rfl | rfl
  · simp
  · have hne : goStr "PRIVATE KEY" ≠ certType := by decide
    simp [hne]

theorem getCert_keeps_certificates_witness :
    getCert framedLib (framedLib.pemEncodeToMemory demoCertBlock ++
        framedLib.pemEncodeToMemory demoKeyBlock) =
      .ok (framedLib.pemEncodeToMemory demoCertBlock) ∧
    getCert framedLib (framedLib.pemEncodeToMemory demoKeyBlock ++
        framedLib.pemEncodeToMemory demoCertBlock) =
      .ok (framedLib.pemEncodeToMemory demoCertBlock) :=
  (getCert_keeps_certificates framedLib).2.1 demoCertBlock demoKeyBlock
    (framedLib_canonical demoCertBlock (Or.inl rfl) rfl (by decide))
    (framedLib_canonical demoKeyBlock (Or.inr rfl) rfl (by decide))
    rfl (by decide)

end Controllers
